import Mathlib

/-
Verification development for the XLSX Template Schema Engine
(xlsx_template_analyzer.py and xlsx_template_filler.py).

The Python code is shallowly embedded: JSON-like values become the
inductive type JVal, a worksheet becomes a total function from
(column letter, row number) to a cell value, and the methods of
XLSXTemplateFiller / XLSXTemplateAnalyzer become Lean functions.
Python numbers are modelled as integers (none of the properties
proved here depends on fractional arithmetic), and code paths that
can raise an exception are modelled with Except.
-/

set_option autoImplicit false

namespace Serafina

/-- JSON-like values, as handled by the filler: Python None, str, int,
bool, list and dict (a dict is an association list of string keys). -/
inductive JVal where
  | null
  | str (s : String)
  | num (n : Int)
  | bool (b : Bool)
  | arr (xs : List JVal)
  | obj (fields : List (String × JVal))

/-- Test for the Python None value (the comparison value is None). -/
def JVal.isNull : JVal → Bool
  | .null => true
  | _ => false

/-- Python truthiness of a JSON-like value. -/
def pyTruthy : JVal → Bool
  | .null => false
  | .str s => s ≠ ""
  | .num n => n ≠ 0
  | .bool b => b
  | .arr xs => !xs.isEmpty
  | .obj fs => !fs.isEmpty

/-- Lookup of a key in a dict (first matching entry). -/
def lookupField : List (String × JVal) → String → Option JVal
  | [], _ => none
  | (k, v) :: rest, key => if k == key then some v else lookupField rest key

/-- Rendering of a value by the Python str() builtin, as far as the code
under verification observes it (it is only compared against the words
total and totals after strip and lower, and worksheet cells only hold
scalar values, so the rendering of composites is abbreviated). -/
def pyStr : JVal → String
  | .null => "None"
  | .str s => s
  | .num n => toString n
  | .bool b => if b then "True" else "False"
  | .arr _ => "[list]"
  | .obj _ => "[dict]"

/-- Whitespace characters stripped by the Python str.strip method
(ASCII range; the code under verification only strips cell text before
comparing it with total). -/
def isPySpace (c : Char) : Bool :=
  c == ' ' || c == '\t' || c == '\n' || c == '\r' || c == '\x0b' || c == '\x0c'

/-- Embedding of str.strip(): drop whitespace from both ends. -/
def pyStrip (s : String) : String :=
  String.mk (((s.toList.dropWhile isPySpace).reverse.dropWhile isPySpace).reverse)

/-- Embedding of str.lower() over the ASCII letters the comparisons in
the code involve. -/
def pyLower (s : String) : String :=
  String.mk (s.toList.map Char.toLower)

/-- Prefix test on character lists. -/
def startsWithList : List Char → List Char → Bool
  | _, [] => true
  | [], _ :: _ => false
  | a :: as, b :: bs => a == b && startsWithList as bs

/-- Substring test on character lists (the Python in operator on
strings; an empty needle is always found). -/
def containsSubList : List Char → List Char → Bool
  | [], sub => sub.isEmpty
  | c :: rest, sub => startsWithList (c :: rest) sub || containsSubList rest sub

/-- Prefix test on strings (str.startswith). -/
def strStartsWith (s pre : String) : Bool := startsWithList s.toList pre.toList

/-- Word characters accepted by the regex class \w in the path grammar. -/
def isWordChar (c : Char) : Bool := c.isAlphanum || c = '_'

/-- Decimal value of a run of digit characters. -/
def digitsToNat (cs : List Char) : Nat :=
  cs.foldl (fun n c => n * 10 + (c.toNat - 48)) 0

/-- Embedding of re.match applied to the pattern (\w+)\[(\d+)\] : a
nonempty run of word characters, an opening bracket, a nonempty run of
digits and a closing bracket, anchored at the start only (any trailing
text is ignored, exactly as re.match does). -/
def matchArrayPart (part : String) : Option (String × Nat) :=
  let cs := part.toList
  let w := cs.takeWhile isWordChar
  let rest := cs.dropWhile isWordChar
  if w.isEmpty then none
  else
    match rest with
    | '[' :: rest2 =>
      let d := rest2.takeWhile Char.isDigit
      let rest3 := rest2.dropWhile Char.isDigit
      if d.isEmpty then none
      else
        match rest3 with
        | ']' :: _ => some (String.mk w, digitsToNat d)
        | _ => none
    | _ => none

/-- Decision of the negative lookahead in the split pattern
\.(?![^\[]*\]) : a dot is a split point unless a closing bracket occurs
in the suffix before any opening bracket. -/
def dotSplits (rest : List Char) : Bool :=
  !((rest.takeWhile (fun c => c != '[')).contains ']')

/-- Worker for splitPath, accumulating the current segment. -/
def splitPathAux : List Char → String → List String
  | [], acc => [acc]
  | '.' :: rest, acc =>
    if dotSplits rest then acc :: splitPathAux rest ""
    else splitPathAux rest (acc.push '.')
  | c :: rest, acc => splitPathAux rest (acc.push c)

/-- Embedding of re.split applied to the pattern \.(?![^\[]*\]) : split
the path on dots that do not stand inside brackets. -/
def splitPath (path : String) : List String :=
  splitPathAux path.toList ""

/-- One iteration of the segment-walking loop of _navigate_json_path. -/
def navStep (current : JVal) (part : String) : JVal :=
  match matchArrayPart part with
  | some (key, index) =>
    match current with
    | .obj fs =>
      match lookupField fs key with
      | some v =>
        match v with
        | .arr xs => if h : index < xs.length then xs.get ⟨index, h⟩ else .null
        | _ => .null
      | none => .null
    | .arr xs =>
      if (key.toList.all Char.isDigit) then
        let idx := digitsToNat key.toList
        if h : idx < xs.length then xs.get ⟨idx, h⟩ else .null
      else .null
    | _ => .null
  | none =>
    match current with
    | .obj fs => (lookupField fs part).getD .null
    | _ => .null

/-- Embedding of XLSXTemplateFiller._navigate_json_path: a None or empty
path gives None; a path that is itself a top-level key of a dict gives
that value directly; otherwise the path is split on dots outside
brackets and walked segment by segment, any failure giving None. -/
def navigate (data : JVal) (path : String) : JVal :=
  if data.isNull || path == "" then .null
  else
    match data with
    | .obj fs =>
      match lookupField fs path with
      | some v => v
      | none => (splitPath path).foldl navStep (JVal.obj fs)
    | .null => (splitPath path).foldl navStep .null
    | .str s => (splitPath path).foldl navStep (.str s)
    | .num n => (splitPath path).foldl navStep (.num n)
    | .bool b => (splitPath path).foldl navStep (.bool b)
    | .arr xs => (splitPath path).foldl navStep (.arr xs)

example : navigate (.obj [("owner", .obj [("name", .str "Acme LLC")])]) "owner.name"
    = .str "Acme LLC" := rfl

example : navigate (.obj [("unitMix.units", .num 3)]) "unitMix.units" = .num 3 := rfl

example : navigate (.obj [("a", .arr [.num 10, .num 20])]) "a[1]" = .num 20 := rfl

example : navigate (.obj [("a", .arr [.num 10])]) "a[5]" = .null := rfl

example : navigate (.obj [("", .num 42)]) "" = .null := rfl

example : navigate (.obj [("structured_data", .arr [.obj [("x", .num 1)]])])
    "structured_data[0]" = .obj [("x", .num 1)] := rfl

/-- A worksheet, modelled as a total assignment of a value to every
(column letter, row number) coordinate; JVal.null is an empty cell. -/
def Sheet : Type := String → Nat → JVal

/-- Writing one cell of a worksheet. -/
def setCell (s : Sheet) (col : String) (row : Nat) (v : JVal) : Sheet :=
  fun c r => if c == col && r == row then v else s c r

/-- The formula test used throughout the filler: the cell value is truthy,
is a string, and starts with the formula marker. -/
def isFormula (v : JVal) : Bool :=
  pyTruthy v && (match v with | .str s => strStartsWith s "=" | _ => false)

/-- Embedding of openpyxl delete_rows(idx, amount): the amount rows
starting at idx disappear and everything below shifts up. -/
def deleteRows (s : Sheet) (idx amount : Nat) : Sheet :=
  fun c r => if r < idx then s c r else s c (r + amount)

/-- One entry of a field-mapping configuration, with every JSON key the
code reads modelled as an optional field (cell references are already
parsed into a column letter and a row number). -/
structure Mapping where
  cell : Option (String × Nat)
  column : Option String
  json_path : Option String
  json_field : Option String
  transform : Option String
  fallback_path : Option String
  fallback_transform : Option String
  source : Option String
  json_root_override : Option String
  label : Option String

/-- A mapping with every field absent. -/
def emptyMapping : Mapping :=
  { cell := none, column := none, json_path := none, json_field := none,
    transform := none, fallback_path := none, fallback_transform := none,
    source := none, json_root_override := none, label := none }

/-- Per-sheet section of the field-mapping configuration. -/
structure SheetConfig where
  mappings : Option (List Mapping)
  array_source : Option String
  row_start : Option Nat
  max_rows : Option Nat
  clear_columns : Option (List String)
  delete_empty_rows : Option Bool

/-- Top-level field-mapping configuration. -/
structure FillConfig where
  json_root : Option String
  sheets : List (String × SheetConfig)

/-- One record of the fill report (sheet name, optional cell reference,
optional label, optional reason, optional value). -/
structure ReportEntry where
  sheet : String
  cellRef : Option (String × Nat)
  label : Option String
  reason : Option String
  value : Option JVal

/-- The fill report accumulated during a run. -/
structure FillReport where
  filled : List ReportEntry
  skipped : List ReportEntry
  external : List ReportEntry
  errors : List ReportEntry

/-- The empty fill report a run starts from. -/
def emptyReport : FillReport :=
  { filled := [], skipped := [], external := [], errors := [] }

/-- Outcome of _fill_cell for one scalar mapping. -/
inductive CellOutcome where
  | external
  | skipped (reason : String)
  | filled (value : JVal)
  | error (msg : String)

/-- Value resolution steps of _fill_cell: pick the lookup root (the
whole document when an override is present and the document is truthy),
resolve the primary path, and on a miss resolve the declared fallback
path against the whole document, applying the fallback transform to a
hit. -/
def resolveValue (tf : JVal → String → JVal) (m : Mapping) (json_path : String)
    (data full_json : JVal) : JVal :=
  let lookup_data :=
    if m.json_root_override.isSome && pyTruthy full_json then full_json else data
  let v1 := navigate lookup_data json_path
  if v1.isNull && (m.fallback_path.getD "" != "") && pyTruthy full_json then
    let fv := navigate full_json (m.fallback_path.getD "")
    if !fv.isNull && (m.fallback_transform.getD "" != "") then
      tf fv (m.fallback_transform.getD "")
    else fv
  else v1

/-- Application of the declared transform of a mapping, when one is
declared and truthy (transforms are pure, so computing this at the
write site is observationally the order the source uses). -/
def transformedValue (tf : JVal → String → JVal) (m : Mapping) (value : JVal) : JVal :=
  if m.transform.getD "" != "" then tf value (m.transform.getD "") else value

/-- Embedding of XLSXTemplateFiller._fill_cell. The transform table
_apply_transform is passed in as the function tf: transforms rewrite the
candidate value and never touch the worksheet, and no property proved
here depends on the rewriting itself, so the embedding quantifies over
it. The raising branch of the source (an unusable cell reference) is
the error outcome. -/
def fillCell (tf : JVal → String → JVal) (sheet : Sheet) (m : Mapping)
    (data full_json : JVal) : Sheet × CellOutcome :=
  match m.json_path with
  | none => (sheet, .external)
  | some json_path =>
    if m.source.getD "pdf_extract" == "external" then (sheet, .external)
    else
      let value := resolveValue tf m json_path data full_json
      if value.isNull then
        (sheet, .skipped ("No value found at path: " ++ json_path))
      else
        match m.cell with
        | none => (sheet, .error "cell reference not usable")
        | some (c, r) =>
          if isFormula (sheet c r) then
            (sheet, .skipped "Cell contains formula, not overwriting")
          else
            (setCell sheet c r (transformedValue tf m value),
              .filled (transformedValue tf m value))

/-- Row scan locating the Total anchor row: read column B over the 50
rows starting at row_start and return the first row whose stripped,
lowercased text is total or totals. The scan in the source also tracks
a last_unit_row variable that is never read again; that dead local is
not modelled. -/
def findTotalRow (sheet : Sheet) (row_start : Nat) : Option Nat :=
  (List.range' row_start 50).find? (fun r =>
    match sheet "B" r with
    | .null => false
    | v =>
      let s := pyLower (pyStrip (pyStr v))
      s == "total" || s == "totals")

/-- Writable capacity of an array block: rows strictly above the Total
anchor when one is discovered, the configured max_rows (default 25)
otherwise. -/
def arrayCapacity (sheet : Sheet) (cfg : SheetConfig) : Nat :=
  match findTotalRow sheet (cfg.row_start.getD 1) with
  | some t => t - cfg.row_start.getD 1
  | none => cfg.max_rows.getD 25

/-- Clearing of one cell: blank it unless it holds a formula. -/
def clearCell (s : Sheet) (col : String) (row : Nat) : Sheet :=
  if isFormula (s col row) then s else setCell s col row .null

/-- Clearing of the first n capacity rows of one column, in ascending
row order as the source loop runs. -/
def clearRows (s : Sheet) (col : String) (row_start : Nat) : Nat → Sheet
  | 0 => s
  | n + 1 => clearCell (clearRows s col row_start n) col (row_start + n)

/-- Clearing phase of _fill_array_data: every truthy clear column is
blanked across all capacity rows, formula cells excepted. -/
def clearPhase (s : Sheet) (cols : List String) (row_start max_rows : Nat) : Sheet :=
  match cols with
  | [] => s
  | col :: rest =>
    clearPhase (if col != "" then clearRows s col row_start max_rows else s)
      rest row_start max_rows

/-- The substring test the summary-row filter performs with the Python
in operator. -/
def strContains (s sub : String) : Bool := containsSubList s.toList sub.toList

/-- Summary-row test of _fill_array_data: the bed field is a string
whose lowercase form contains total or all. -/
def isSummaryBed (bed : JVal) : Bool :=
  match bed with
  | .str s => strContains (pyLower s) "total" || strContains (pyLower s) "all"
  | _ => false

/-- Python dict .get with a default, raising AttributeError on a
non-dict receiver exactly as row_data.get does. -/
def pyGet (v : JVal) (key : String) (default : JVal) : Except String JVal :=
  match v with
  | .obj fs => .ok ((lookupField fs key).getD default)
  | _ => .error "AttributeError: value has no attribute get"

/-- Integer parse performed by the Python int builtin on a string:
optional surrounding whitespace, optional sign, a nonempty digit run. -/
def parseIntStr (s : String) : Option Int :=
  let t := pyStrip s
  let (sign, digits) :=
    match t.toList with
    | '-' :: rest => ((-1 : Int), rest)
    | '+' :: rest => ((1 : Int), rest)
    | l => ((1 : Int), l)
  if digits.isEmpty || !digits.all Char.isDigit then none
  else some (sign * (digitsToNat digits : Int))

/-- The Python int builtin on a JSON value: numbers pass through, bools
become 0 or 1, numeric strings parse, anything else raises. -/
def pyToInt : JVal → Except String Int
  | .num n => .ok n
  | .bool b => .ok (if b then 1 else 0)
  | .str s =>
    match parseIntStr s with
    | some n => .ok n
    | none => .error ("invalid literal for int: " ++ s)
  | _ => .error "int argument must be a number or a string"

/-- The isinstance(x, (int, float)) test of the bed-bath branch; Python
bools are instances of int and therefore pass it. -/
def isPyNumber : JVal → Bool
  | .num _ => true
  | .bool _ => true
  | _ => false

/-- Truncating int conversion on values that passed isPyNumber. -/
def pyNumToInt : JVal → Int
  | .num n => n
  | .bool b => if b then 1 else 0
  | _ => 0

/-- Value computed for one column mapping of one source row inside the
array write loop: ok none models a continue (nothing written for this
column), ok (some v) the value to write, error a raised exception. -/
def computeColValue (m : Mapping) (row_data : JVal) : Except String (Option JVal) :=
  if m.transform == some "bed_bath_label" then
    match pyGet row_data "bed" .null with
    | .error e => .error e
    | .ok bed =>
      match pyGet row_data "bath" .null with
      | .error e => .error e
      | .ok bath =>
        if isPyNumber bed && isPyNumber bath then
          .ok (some (.str (toString (pyNumToInt bed) ++ "B/"
            ++ toString (pyNumToInt bath) ++ "Ba")))
        else .ok none
  else if m.transform == some "calc_occupied" then
    let total_units := navigate row_data "unitMix.units"
    let available_units := navigate row_data "availability.units"
    if !total_units.isNull && !available_units.isNull then
      match pyToInt total_units with
      | .error e => .error e
      | .ok t =>
        match pyToInt available_units with
        | .error e => .error e
        | .ok a => .ok (some (.num (t - a)))
    else .ok none
  else if m.json_field.getD "" == "" then .ok none
  else
    let v := navigate row_data (m.json_field.getD "")
    if v.isNull then .ok none else .ok (some v)

/-- Column loop of the array write phase for one source row at one
worksheet row: each truthy column computes its value, skips on a
missing value or a formula target, and otherwise writes the cell and
records a filled entry. -/
def writeCols (sheetName : String) (row : Nat) (row_data : JVal) :
    List Mapping → Sheet → FillReport → Except String (Sheet × FillReport)
  | [], s, rep => .ok (s, rep)
  | m :: rest, s, rep =>
    if m.column.getD "" == "" then writeCols sheetName row row_data rest s rep
    else
      match computeColValue m row_data with
      | .error e => .error e
      | .ok none => writeCols sheetName row row_data rest s rep
      | .ok (some v) =>
        let col := m.column.getD ""
        if isFormula (s col row) then writeCols sheetName row row_data rest s rep
        else
          writeCols sheetName row row_data rest (setCell s col row v)
            { rep with filled := rep.filled ++
                [{ sheet := sheetName, cellRef := some (col, row),
                   label := m.label, reason := none, value := some v }] }

/-- Row loop of the array write phase over the enumerated source array:
the worksheet row is row_start plus the enumeration index, summary rows
are skipped, and rows_to_fill counts the non-summary rows. -/
def writeRows (sheetName : String) (colMaps : List Mapping) (row_start : Nat) :
    List (Nat × JVal) → Sheet → FillReport → Nat →
    Except String (Sheet × FillReport × Nat)
  | [], s, rep, n => .ok (s, rep, n)
  | (i, row_data) :: rest, s, rep, n =>
    match pyGet row_data "bed" (.str "") with
    | .error e => .error e
    | .ok bed =>
      if isSummaryBed bed then writeRows sheetName colMaps row_start rest s rep n
      else
        match writeCols sheetName (row_start + i) row_data colMaps s rep with
        | .error e => .error e
        | .ok (s2, rep2) => writeRows sheetName colMaps row_start rest s2 rep2 (n + 1)

/-- Embedding of XLSXTemplateFiller._fill_array_data: discover the Total
anchor and the capacity, clear the capacity rows, resolve the source
array (anything but a nonempty list returns after the clear), run the
write loop, and delete the unused trailing capacity rows. -/
def fillArrayData (sheet : Sheet) (cfg : SheetConfig) (data : JVal)
    (rep : FillReport) (sheetName : String) : Except String (Sheet × FillReport) :=
  let row_start := cfg.row_start.getD 1
  let column_mappings := cfg.mappings.getD []
  let clear_columns := cfg.clear_columns.getD
    ((column_mappings.filterMap Mapping.column).filter (fun c => c ≠ ""))
  let delete_empty_rows := cfg.delete_empty_rows.getD true
  let max_rows := arrayCapacity sheet cfg
  let sheet1 := clearPhase sheet clear_columns row_start max_rows
  match navigate data (cfg.array_source.getD "") with
  | .arr xs =>
    if xs.isEmpty then .ok (sheet1, rep)
    else
      match writeRows sheetName column_mappings row_start (List.enumFrom 0 xs) sheet1 rep 0 with
      | .error e => .error e
      | .ok (s2, rep2, rows_to_fill) =>
        if delete_empty_rows && rows_to_fill < max_rows then
          .ok (deleteRows s2 (row_start + rows_to_fill) (max_rows - rows_to_fill), rep2)
        else .ok (s2, rep2)
  | _ => .ok (sheet1, rep)

/-- Routing of a _fill_cell outcome into the report, as _add_to_report
does. -/
def addToReport (rep : FillReport) (sheetName : String) (m : Mapping)
    (res : CellOutcome) : FillReport :=
  match res with
  | .filled v =>
    { rep with filled := rep.filled ++
        [{ sheet := sheetName, cellRef := m.cell, label := m.label,
           reason := none, value := some v }] }
  | .skipped reason =>
    { rep with skipped := rep.skipped ++
        [{ sheet := sheetName, cellRef := m.cell, label := m.label,
           reason := some reason, value := none }] }
  | .external =>
    { rep with external := rep.external ++
        [{ sheet := sheetName, cellRef := m.cell, label := m.label,
           reason := none, value := none }] }
  | .error e =>
    { rep with errors := rep.errors ++
        [{ sheet := sheetName, cellRef := m.cell, label := m.label,
           reason := some e, value := none }] }

/-- Scalar-mapping loop of fill for one sheet. -/
def runScalarMappings (tf : JVal → String → JVal) (ms : List Mapping)
    (sheet : Sheet) (data full_json : JVal) (sheetName : String)
    (rep : FillReport) : Sheet × FillReport :=
  match ms with
  | [] => (sheet, rep)
  | m :: rest =>
    let res := fillCell tf sheet m data full_json
    runScalarMappings tf rest res.1 data full_json sheetName
      (addToReport rep sheetName m res.2)

/-- Processing of one configured sheet: scalar mappings when the
mappings key is present, then the array block when array_source is
present. -/
def processSheet (tf : JVal → String → JVal) (cfg : SheetConfig) (sheet : Sheet)
    (data full_json : JVal) (sheetName : String) (rep : FillReport) :
    Except String (Sheet × FillReport) :=
  let scalars :=
    match cfg.mappings with
    | some ms => runScalarMappings tf ms sheet data full_json sheetName rep
    | none => (sheet, rep)
  match cfg.array_source with
  | some _ => fillArrayData scalars.1 cfg data scalars.2 sheetName
  | none => .ok scalars

/-- A workbook: the sheets of the output copy, by name. -/
def Workbook : Type := List (String × Sheet)

/-- Sheet lookup by name. -/
def lookupSheet (wb : Workbook) (name : String) : Option Sheet :=
  match wb with
  | [] => none
  | (n, s) :: rest => if n == name then some s else lookupSheet rest name

/-- Sheet replacement by name. -/
def setSheet (wb : Workbook) (name : String) (s : Sheet) : Workbook :=
  wb.map (fun p => if p.1 == name then (p.1, s) else p)

/-- Per-sheet loop of fill: a configured sheet missing from the template
records an error entry and continues; any exception out of a sheet
aborts the run. -/
def runSheets (tf : JVal → String → JVal) :
    List (String × SheetConfig) → Workbook → JVal → JVal → FillReport →
    Except String (Workbook × FillReport)
  | [], wb, _, _, rep => .ok (wb, rep)
  | (name, cfg) :: rest, wb, data, full_json, rep =>
    match lookupSheet wb name with
    | none =>
      runSheets tf rest wb data full_json
        { rep with errors := rep.errors ++
            [{ sheet := name, cellRef := none, label := none,
               reason := some "Sheet not found in template", value := none }] }
    | some sheet =>
      match processSheet tf cfg sheet data full_json name rep with
      | .error e => .error e
      | .ok (s2, rep2) => runSheets tf rest (setSheet wb name s2) data full_json rep2

/-- Filesystem side effects of a fill run, in order. -/
inductive Effect where
  | copy (dst : String)
  | save (dst : String)
deriving Repr, DecidableEq

/-- Result of a fill run. -/
inductive FillOutcome where
  | error (msg : String)
  | success (rep : FillReport)

/-- Embedding of XLSXTemplateFiller.fill: use the argument mappings or
the previously loaded ones, failing before any filesystem effect when
neither exists; then copy the template, resolve the data root, process
every configured sheet and save. An exception anywhere after the copy
yields an error outcome with no save. -/
def fill (tf : JVal → String → JVal) (template : Workbook) (json_data : JVal)
    (output_path : String) (mappingsArg loadedMappings : Option FillConfig) :
    FillOutcome × List Effect :=
  match mappingsArg.orElse (fun _ => loadedMappings) with
  | none => (.error "No field mappings provided or loaded", [])
  | some fm =>
    let eff := [Effect.copy output_path]
    let json_root := fm.json_root.getD "structured_data[0]"
    let data := navigate json_data json_root
    if data.isNull then
      (.error ("Could not find data at json_root: " ++ json_root), eff)
    else
      match runSheets tf fm.sheets template data json_data emptyReport with
      | .error e => (.error e, eff)
      | .ok (_, rep) => (.success rep, eff ++ [Effect.save output_path])

/-
Analyzer model (xlsx_template_analyzer.py). Only the parts the claims
under verification exercise are embedded: header-row detection over a
worksheet with values and bold flags, and the control flow of analyze
around per-sheet analysis failures.
-/

/-- A cell as the analyzer reads it: its value and whether its font is
bold (cell.font and cell.font.bold collapsed to one flag). -/
structure ACell where
  value : JVal
  bold : Bool

/-- A worksheet as the analyzer scans it: dimensions plus a total cell
assignment indexed by (row, column), both 1-based. -/
structure ASheet where
  maxRow : Nat
  maxCol : Nat
  cell : Nat → Nat → ACell

/-- The test isinstance(v, str) and v: a nonempty string. -/
def isNonEmptyText (v : JVal) : Bool :=
  match v with
  | .str s => s ≠ ""
  | _ => false

/-- First rule of _detect_header_rows: the scan of row 1 over the
columns range(1, min(10, max_column + 1)), marking it when any scanned
cell holds nonempty text. -/
def firstRowHeader (s : ASheet) : Bool :=
  decide (0 < s.maxRow) &&
    (List.range' 1 (min 9 s.maxCol)).any (fun c => isNonEmptyText (s.cell 1 c).value)

/-- Count of text cells of a row over the columns
range(1, min(20, max_column + 1)). -/
def rowTextCount (s : ASheet) (r : Nat) : Nat :=
  ((List.range' 1 (min 19 s.maxCol)).filter
    (fun c => isNonEmptyText (s.cell r c).value)).length

/-- Count of bold text cells of a row over the same column window. -/
def rowBoldTextCount (s : ASheet) (r : Nat) : Nat :=
  ((List.range' 1 (min 19 s.maxCol)).filter
    (fun c => isNonEmptyText (s.cell r c).value && (s.cell r c).bold)).length

/-- Second rule of _detect_header_rows for one row: text cells exist and
bold_count / text_count > 0.5. The float comparison is exact at these
sizes (both counts are at most 19, so the true ratio is at least 1/38
away from one half whenever 2 * bold differs from text), and is
embedded as text < 2 * bold. -/
def boldHeaderRow (s : ASheet) (r : Nat) : Bool :=
  decide (0 < rowTextCount s r) && decide (rowTextCount s r < 2 * rowBoldTextCount s r)

/-- Membership in the header_rows set _detect_header_rows returns: row 1
through the first rule, or a row of range(1, min(10, max_row + 1))
through the bold-majority rule. -/
def isHeaderRow (s : ASheet) (r : Nat) : Bool :=
  (r == 1 && firstRowHeader s) ||
    (decide (1 ≤ r) && decide (r ≤ min 9 s.maxRow) && boldHeaderRow s r)

/-- Schema of one successfully analyzed sheet, reduced to the summary
counts the top level aggregates. -/
structure SheetSchema where
  name : String
  inputFields : Nat
  formulaFields : Nat
  labels : Nat

/-- Result of analyze: either the schema object or the single error
object the exception handler returns. -/
inductive AnalyzeResult where
  | errorObj (error : String) (template_name : String)
  | schema (template_name : String) (sheet_count : Nat) (sheets : List SheetSchema)

/-- The per-sheet loop of analyze: each sheet is analyzed in turn with
no per-sheet exception handling, so the first raising sheet aborts the
whole loop. -/
def analyzeSheets (f : String → Except String SheetSchema) :
    List String → Except String (List SheetSchema)
  | [] => .ok []
  | n :: rest =>
    match f n with
    | .error e => .error e
    | .ok s =>
      match analyzeSheets f rest with
      | .error e => .error e
      | .ok ss => .ok (s :: ss)

/-- Embedding of XLSXTemplateAnalyzer.analyze: the workbook load yields
the sheet names or raises, each sheet is analyzed by _analyze_sheet
(passed in as f, since its failures come from the spreadsheet library),
and the surrounding try turns any exception into a single error object
with no partial schema. -/
def analyze (loadResult : Except String (List String))
    (f : String → Except String SheetSchema) (templateName : String) : AnalyzeResult :=
  match loadResult with
  | .error e => .errorObj e templateName
  | .ok sheetnames =>
    match analyzeSheets f sheetnames with
    | .error e => .errorObj e templateName
    | .ok schemas => .schema templateName sheetnames.length schemas

/-- Sheet of the summary-gap counterexample: Total anchor in B7,
a value of 50 in C7 on the anchor row, capacity rows 5 and 6 blank. -/
def cexSheet2 : Sheet := fun c r =>
  if c == "B" && r == 7 then .str "Total"
  else if c == "C" && r == 7 then .num 50
  else .null

/-- Array-block configuration of the summary-gap counterexample: one
rent column C starting at row 5. -/
def cexCfg2 : SheetConfig :=
  { mappings := some [{ emptyMapping with column := some "C", json_field := some "rent" }],
    array_source := some "units", row_start := some 5, max_rows := none,
    clear_columns := none, delete_empty_rows := none }

/-- Source data of the summary-gap counterexample: a summary row
followed by one data row with rent 7. -/
def cexData2 : JVal :=
  .obj [("units", .arr
    [ .obj [("bed", .str "Total"), ("rent", .num 99)],
      .obj [("bed", .num 1), ("rent", .num 7)] ])]

/-- Sheet of the anchor-overwrite counterexample: Total anchor in B6
with a value of 100 in C6, one capacity row. -/
def cexSheet4 : Sheet := fun c r =>
  if c == "B" && r == 6 then .str "Total"
  else if c == "C" && r == 6 then .num 100
  else .null

/-- Array-block configuration of the anchor-overwrite counterexample. -/
def cexCfg4 : SheetConfig :=
  { mappings := some [{ emptyMapping with column := some "C", json_field := some "rent" }],
    array_source := some "units", row_start := some 5, max_rows := none,
    clear_columns := none, delete_empty_rows := none }

/-- Source data of the anchor-overwrite counterexample: two data rows
against a capacity of one. -/
def cexData4 : JVal :=
  .obj [("units", .arr
    [ .obj [("bed", .num 1), ("rent", .num 7)],
      .obj [("bed", .num 2), ("rent", .num 8)] ])]

/-
General lemmas about the embedded operations.
-/

lemma isFormula_null : isFormula JVal.null = false := rfl

lemma setCell_same (s : Sheet) (col : String) (row : Nat) (v : JVal) :
    setCell s col row v col row = v := by
  simp [setCell]

lemma setCell_other {c col : String} {r row : Nat} (s : Sheet) (v : JVal)
    (h : c ≠ col ∨ r ≠ row) : setCell s col row v c r = s c r := by
  rcases h with h | h <;> simp [setCell, h]

lemma clearCell_formula {s : Sheet} {c : String} {r : Nat}
    (h : isFormula (s c r) = true) (col : String) (row : Nat) :
    clearCell s col row c r = s c r := by
  unfold clearCell
  by_cases hf : isFormula (s col row) = true
  · simp [hf]
  · rw [if_neg (by simp [hf])]
    by_cases hc : c = col ∧ r = row
    · exact absurd (hc.1 ▸ hc.2 ▸ h) (by simp [hf])
    · apply setCell_other
      rcases not_and_or.mp hc with h2 | h2
      · exact Or.inl h2
      · exact Or.inr h2

lemma clearCell_other {c col : String} {r row : Nat} (s : Sheet)
    (h : c ≠ col ∨ r ≠ row) : clearCell s col row c r = s c r := by
  unfold clearCell
  by_cases hf : isFormula (s col row) = true
  · simp [hf]
  · rw [if_neg (by simp [hf])]
    exact setCell_other s _ h

lemma clearCell_cases (s : Sheet) (col : String) (row : Nat) (c : String) (r : Nat) :
    clearCell s col row c r = s c r ∨ clearCell s col row c r = JVal.null := by
  unfold clearCell
  by_cases hf : isFormula (s col row) = true
  · simp [hf]
  · rw [if_neg (by simp [hf])]
    by_cases hc : c = col ∧ r = row
    · right
      rw [hc.1, hc.2, setCell_same]
    · left
      apply setCell_other
      rcases not_and_or.mp hc with h2 | h2
      · exact Or.inl h2
      · exact Or.inr h2

lemma clearRows_out {c col : String} {r row_start : Nat} (s : Sheet) :
    ∀ n : Nat, (r < row_start ∨ row_start + n ≤ r) → clearRows s col row_start n c r = s c r
  | 0, _ => rfl
  | n + 1, h => by
    rw [clearRows, clearCell_other]
    · exact clearRows_out s n (by omega)
    · right; omega

lemma clearRows_formula {s : Sheet} {c : String} {r : Nat}
    (h : isFormula (s c r) = true) (col : String) (row_start : Nat) :
    ∀ n : Nat, clearRows s col row_start n c r = s c r
  | 0 => rfl
  | n + 1 => by
    rw [clearRows]
    rw [clearCell_formula (by rw [clearRows_formula h col row_start n]; exact h)]
    exact clearRows_formula h col row_start n

lemma clearRows_cases (s : Sheet) (col : String) (row_start : Nat) (c : String) (r : Nat) :
    ∀ n : Nat, clearRows s col row_start n c r = s c r ∨ clearRows s col row_start n c r = JVal.null
  | 0 => Or.inl rfl
  | n + 1 => by
    rw [clearRows]
    rcases clearCell_cases (clearRows s col row_start n) col (row_start + n) c r with h | h
    · rw [h]; exact clearRows_cases s col row_start c r n
    · right; exact h

lemma clearPhase_out {c : String} {r row_start max_rows : Nat}
    (h : r < row_start ∨ row_start + max_rows ≤ r) :
    ∀ (cols : List String) (s : Sheet), clearPhase s cols row_start max_rows c r = s c r
  | [], _ => rfl
  | col :: rest, s => by
    rw [clearPhase, clearPhase_out h rest]
    by_cases hcol : col != ""
    · rw [if_pos hcol, clearRows_out s _ h]
    · rw [if_neg hcol]

lemma clearPhase_formula {c : String} {r : Nat} {row_start max_rows : Nat} :
    ∀ (cols : List String) (s : Sheet), isFormula (s c r) = true →
      clearPhase s cols row_start max_rows c r = s c r
  | [], _, _ => rfl
  | col :: rest, s, h => by
    rw [clearPhase]
    by_cases hcol : col != ""
    · rw [if_pos hcol,
        clearPhase_formula rest _ (by rw [clearRows_formula h col row_start max_rows]; exact h),
        clearRows_formula h col row_start max_rows]
    · rw [if_neg hcol, clearPhase_formula rest s h]

lemma clearPhase_cases (row_start max_rows : Nat) (c : String) (r : Nat) :
    ∀ (cols : List String) (s : Sheet),
      clearPhase s cols row_start max_rows c r = s c r
        ∨ clearPhase s cols row_start max_rows c r = JVal.null
  | [], _ => Or.inl rfl
  | col :: rest, s => by
    rw [clearPhase]
    by_cases hcol : col != ""
    · rw [if_pos hcol]
      rcases clearPhase_cases row_start max_rows c r rest (clearRows s col row_start max_rows)
        with h | h
    -- value after the phase is the value after this column, which is the
    -- original value or blank
      · rw [h]
        exact clearRows_cases s col row_start c r max_rows
      · right; exact h
    · rw [if_neg hcol]
      exact clearPhase_cases row_start max_rows c r rest s

lemma mem_filterMap_column {maps : List Mapping} {m : Mapping} {col : String}
    (hm : m ∈ maps) (hc : m.column = some col) : col ∈ maps.filterMap Mapping.column :=
  List.mem_filterMap.mpr ⟨m, hm, hc⟩

lemma writeCols_other_row {sn : String} {row : Nat} {rd : JVal} {c : String} {r : Nat}
    (hr : r ≠ row) :
    ∀ {maps : List Mapping} {s : Sheet} {rep : FillReport} {s2 : Sheet} {rep2 : FillReport},
      writeCols sn row rd maps s rep = .ok (s2, rep2) → s2 c r = s c r
  | [], _, _, _, _, h => by
    rw [writeCols] at h
    cases h
    rfl
  | m :: rest, s, rep, s2, rep2, h => by
    rw [writeCols] at h
    by_cases hcol : (m.column.getD "" == "") = true
    · rw [if_pos hcol] at h
      exact writeCols_other_row hr h
    · rw [if_neg hcol] at h
      cases hv : computeColValue m rd with
      | error e => rw [hv] at h; cases h
      | ok vo =>
        rw [hv] at h
        cases vo with
        | none => exact writeCols_other_row hr h
        | some v =>
          dsimp only at h
          by_cases hf : isFormula (s (m.column.getD "") row) = true
          · rw [if_pos hf] at h
            exact writeCols_other_row hr h
          · rw [if_neg hf] at h
            rw [writeCols_other_row hr h]
            exact setCell_other s v (Or.inr hr)

lemma writeCols_formula {sn : String} {row : Nat} {rd : JVal} {c : String} {r : Nat} :
    ∀ {maps : List Mapping} {s : Sheet} {rep : FillReport} {s2 : Sheet} {rep2 : FillReport},
      isFormula (s c r) = true → writeCols sn row rd maps s rep = .ok (s2, rep2) →
      s2 c r = s c r
  | [], _, _, _, _, _, h => by
    rw [writeCols] at h
    cases h
    rfl
  | m :: rest, s, rep, s2, rep2, hform, h => by
    rw [writeCols] at h
    by_cases hcol : (m.column.getD "" == "") = true
    · rw [if_pos hcol] at h
      exact writeCols_formula hform h
    · rw [if_neg hcol] at h
      cases hv : computeColValue m rd with
      | error e => rw [hv] at h; cases h
      | ok vo =>
        rw [hv] at h
        cases vo with
        | none => exact writeCols_formula hform h
        | some v =>
          dsimp only at h
          by_cases hf : isFormula (s (m.column.getD "") row) = true
          · rw [if_pos hf] at h
            exact writeCols_formula hform h
          · rw [if_neg hf] at h
            have hne : c ≠ m.column.getD "" ∨ r ≠ row := by
              by_contra hcon
              push_neg at hcon
              rw [hcon.1, hcon.2] at hform
              exact (by simp [hform] at hf)
            have hcell : setCell s (m.column.getD "") row v c r = s c r :=
              setCell_other s v hne
            rw [writeCols_formula (by rw [hcell]; exact hform) h, hcell]

lemma writeCols_col_untouched {sn : String} {row : Nat} {rd : JVal} {c : String} {r : Nat} :
    ∀ {maps : List Mapping} {s : Sheet} {rep : FillReport} {s2 : Sheet} {rep2 : FillReport},
      (∀ m ∈ maps, m.column ≠ some c) →
      writeCols sn row rd maps s rep = .ok (s2, rep2) → s2 c r = s c r
  | [], _, _, _, _, _, h => by
    rw [writeCols] at h
    cases h
    rfl
  | m :: rest, s, rep, s2, rep2, hcols, h => by
    rw [writeCols] at h
    have hrest : ∀ m2 ∈ rest, m2.column ≠ some c :=
      fun m2 hm2 => hcols m2 (List.mem_cons_of_mem m hm2)
    by_cases hcol : (m.column.getD "" == "") = true
    · rw [if_pos hcol] at h
      exact writeCols_col_untouched hrest h
    · rw [if_neg hcol] at h
      cases hv : computeColValue m rd with
      | error e => rw [hv] at h; cases h
      | ok vo =>
        rw [hv] at h
        cases vo with
        | none => exact writeCols_col_untouched hrest h
        | some v =>
          dsimp only at h
          by_cases hf : isFormula (s (m.column.getD "") row) = true
          · rw [if_pos hf] at h
            exact writeCols_col_untouched hrest h
          · rw [if_neg hf] at h
            have hcne : c ≠ m.column.getD "" := by
              intro hce
              cases hmc : m.column with
              | none =>
                rw [hmc] at hcol
                exact hcol rfl
              | some col2 =>
                apply hcols m (List.mem_cons_self m rest)
                rw [hmc]
                rw [hmc] at hce
                simp only [Option.getD_some] at hce
                rw [hce]
            rw [writeCols_col_untouched hrest h]
            exact setCell_other s v (Or.inl hcne)

lemma writeCols_writes {sn : String} {row : Nat} {rd : JVal} {col : String} {v : JVal} :
    ∀ {maps : List Mapping} {s : Sheet} {rep : FillReport} {s2 : Sheet} {rep2 : FillReport}
      {m : Mapping}, m ∈ maps → m.column = some col → col ≠ "" →
      computeColValue m rd = .ok (some v) →
      isFormula (s col row) = false →
      (maps.filterMap Mapping.column).Nodup →
      writeCols sn row rd maps s rep = .ok (s2, rep2) → s2 col row = v
  | [], _, _, _, _, _, hm, _, _, _, _, _, _ => absurd hm (List.not_mem_nil _)
  | m2 :: rest, s, rep, s2, rep2, m, hm, hcolm, hcolne, hcomp, hform, hnodup, h => by
    rw [writeCols] at h
    rcases List.mem_cons.mp hm with rfl | hmrest
    · rw [if_neg (by simp [hcolm, hcolne])] at h
      rw [hcomp] at h
      dsimp only at h
      rw [hcolm] at h
      simp only [Option.getD_some] at h
      rw [if_neg (by simp [hform])] at h
      have hrest : ∀ m3 ∈ rest, m3.column ≠ some col := by
        intro m3 hm3 hc3
        have hmem : col ∈ rest.filterMap Mapping.column := mem_filterMap_column hm3 hc3
        rw [List.filterMap_cons, hcolm] at hnodup
        exact (List.nodup_cons.mp hnodup).1 hmem
      rw [writeCols_col_untouched hrest h]
      exact setCell_same s col row v
    · by_cases hcol2 : (m2.column.getD "" == "") = true
      · rw [if_pos hcol2] at h
        have hnodup2 : (rest.filterMap Mapping.column).Nodup := by
          rw [List.filterMap_cons] at hnodup
          cases hc2 : m2.column with
          | none => rw [hc2] at hnodup; exact hnodup
          | some c2 => rw [hc2] at hnodup; exact (List.nodup_cons.mp hnodup).2
        exact writeCols_writes hmrest hcolm hcolne hcomp hform hnodup2 h
      · rw [if_neg hcol2] at h
        have hnodup2 : (rest.filterMap Mapping.column).Nodup := by
          rw [List.filterMap_cons] at hnodup
          cases hc2 : m2.column with
          | none => rw [hc2] at hnodup; exact hnodup
          | some c2 => rw [hc2] at hnodup; exact (List.nodup_cons.mp hnodup).2
        cases hv : computeColValue m2 rd with
        | error e => rw [hv] at h; cases h
        | ok vo =>
          rw [hv] at h
          cases vo with
          | none => exact writeCols_writes hmrest hcolm hcolne hcomp hform hnodup2 h
          | some v2 =>
            dsimp only at h
            by_cases hf2 : isFormula (s (m2.column.getD "") row) = true
            · rw [if_pos hf2] at h
              exact writeCols_writes hmrest hcolm hcolne hcomp hform hnodup2 h
            · rw [if_neg hf2] at h
              have hc2some : ∃ c2, m2.column = some c2 := by
                cases hc2 : m2.column with
                | none => rw [hc2] at hcol2; exact absurd rfl hcol2
                | some c2 => exact ⟨c2, rfl⟩
              obtain ⟨c2, hc2⟩ := hc2some
              have hc2ne : c2 ≠ col := by
                intro hceq
                have hmem : col ∈ rest.filterMap Mapping.column :=
                  mem_filterMap_column hmrest hcolm
                rw [List.filterMap_cons, hc2] at hnodup
                exact (List.nodup_cons.mp hnodup).1 (hceq ▸ hmem)
              have hpres : setCell s (m2.column.getD "") row v2 col row = s col row := by
                apply setCell_other
                left
                rw [hc2]
                simp only [Option.getD_some]
                exact fun he => hc2ne he.symm
              exact writeCols_writes hmrest hcolm hcolne hcomp
                (by rw [hpres]; exact hform) hnodup2 h

lemma writeCols_report {sn : String} {row : Nat} {rd : JVal} :
    ∀ {maps : List Mapping} {s : Sheet} {rep : FillReport} {s2 : Sheet} {rep2 : FillReport},
      writeCols sn row rd maps s rep = .ok (s2, rep2) →
      ∀ e ∈ rep2.filled, e ∈ rep.filled ∨ ∃ col2, e.cellRef = some (col2, row)
  | [], _, _, _, _, h => by
    rw [writeCols] at h
    cases h
    exact fun e he => Or.inl he
  | m :: rest, s, rep, s2, rep2, h => by
    rw [writeCols] at h
    by_cases hcol : (m.column.getD "" == "") = true
    · rw [if_pos hcol] at h
      exact writeCols_report h
    · rw [if_neg hcol] at h
      cases hv : computeColValue m rd with
      | error e => rw [hv] at h; cases h
      | ok vo =>
        rw [hv] at h
        cases vo with
        | none => exact writeCols_report h
        | some v =>
          dsimp only at h
          by_cases hf : isFormula (s (m.column.getD "") row) = true
          · rw [if_pos hf] at h
            exact writeCols_report h
          · rw [if_neg hf] at h
            intro e he
            rcases writeCols_report h e he with hin | hnew
            · rcases List.mem_append.mp hin with hold | hone
              · exact Or.inl hold
              · right
                rcases List.mem_singleton.mp hone with rfl
                exact ⟨m.column.getD "", rfl⟩
            · exact Or.inr hnew

/-- A source row the write loop processes (a dict whose bed field does
not mark it as a summary row). -/
def IsDataRow (rd : JVal) : Prop :=
  ∃ fs, rd = JVal.obj fs
    ∧ isSummaryBed ((lookupField fs "bed").getD (.str "")) = false

/-- A source row the write loop skips (a dict whose bed field marks it
as a summary row). -/
def IsSummaryRow (rd : JVal) : Prop :=
  ∃ fs, rd = JVal.obj fs
    ∧ isSummaryBed ((lookupField fs "bed").getD (.str "")) = true

lemma pyGet_obj (fs : List (String × JVal)) (key : String) (default : JVal) :
    pyGet (JVal.obj fs) key default = .ok ((lookupField fs key).getD default) := rfl

lemma writeRows_other {sn : String} {cm : List Mapping} {rs : Nat} {c : String} {r : Nat} :
    ∀ {l : List (Nat × JVal)} {s : Sheet} {rep : FillReport} {n : Nat}
      {s2 : Sheet} {rep2 : FillReport} {n2 : Nat},
      (∀ p ∈ l, rs + p.1 ≠ r) →
      writeRows sn cm rs l s rep n = .ok (s2, rep2, n2) → s2 c r = s c r
  | [], _, _, _, _, _, _, _, h => by
    rw [writeRows] at h
    cases h
    rfl
  | (i, rd) :: rest, s, rep, n, s2, rep2, n2, hrows, h => by
    rw [writeRows] at h
    have hrest : ∀ p ∈ rest, rs + p.1 ≠ r :=
      fun p hp => hrows p (List.mem_cons_of_mem _ hp)
    cases hg : pyGet rd "bed" (.str "") with
    | error e => rw [hg] at h; cases h
    | ok bed =>
      rw [hg] at h
      dsimp only at h
      by_cases hsb : isSummaryBed bed = true
      · rw [if_pos hsb] at h
        exact writeRows_other hrest h
      · rw [if_neg hsb] at h
        cases hw : writeCols sn (rs + i) rd cm s rep with
        | error e => rw [hw] at h; cases h
        | ok pr =>
          obtain ⟨s1, rep1⟩ := pr
          rw [hw] at h
          dsimp only at h
          rw [writeRows_other hrest h]
          exact writeCols_other_row (Ne.symm (hrows (i, rd) (List.mem_cons_self _ _))) hw

lemma writeRows_formula {sn : String} {cm : List Mapping} {rs : Nat} {c : String} {r : Nat} :
    ∀ {l : List (Nat × JVal)} {s : Sheet} {rep : FillReport} {n : Nat}
      {s2 : Sheet} {rep2 : FillReport} {n2 : Nat},
      isFormula (s c r) = true →
      writeRows sn cm rs l s rep n = .ok (s2, rep2, n2) → s2 c r = s c r
  | [], _, _, _, _, _, _, _, h => by
    rw [writeRows] at h
    cases h
    rfl
  | (i, rd) :: rest, s, rep, n, s2, rep2, n2, hform, h => by
    rw [writeRows] at h
    cases hg : pyGet rd "bed" (.str "") with
    | error e => rw [hg] at h; cases h
    | ok bed =>
      rw [hg] at h
      dsimp only at h
      by_cases hsb : isSummaryBed bed = true
      · rw [if_pos hsb] at h
        exact writeRows_formula hform h
      · rw [if_neg hsb] at h
        cases hw : writeCols sn (rs + i) rd cm s rep with
        | error e => rw [hw] at h; cases h
        | ok pr =>
          obtain ⟨s1, rep1⟩ := pr
          rw [hw] at h
          dsimp only at h
          have hs1 : s1 c r = s c r := writeCols_formula hform hw
          rw [writeRows_formula (by rw [hs1]; exact hform) h]
          exact hs1

lemma writeRows_all_summary {sn : String} {cm : List Mapping} {rs : Nat} :
    ∀ {l : List (Nat × JVal)} {s : Sheet} {rep : FillReport} {n : Nat},
      (∀ p ∈ l, IsSummaryRow p.2) →
      writeRows sn cm rs l s rep n = .ok (s, rep, n)
  | [], _, _, _, _ => rfl
  | (i, rd) :: rest, s, rep, n, hall => by
    obtain ⟨fs, hobj, hsum⟩ := hall (i, rd) (List.mem_cons_self _ _)
    have hobj2 : rd = JVal.obj fs := hobj
    rw [writeRows, hobj2, pyGet_obj]
    dsimp only
    rw [if_pos hsum]
    exact writeRows_all_summary (fun p hp => hall p (List.mem_cons_of_mem _ hp))

lemma writeRows_count {sn : String} {cm : List Mapping} {rs : Nat} :
    ∀ {l : List (Nat × JVal)} {s : Sheet} {rep : FillReport} {n : Nat}
      {s2 : Sheet} {rep2 : FillReport} {n2 : Nat},
      (∀ p ∈ l, IsDataRow p.2) →
      writeRows sn cm rs l s rep n = .ok (s2, rep2, n2) → n2 = n + l.length
  | [], _, _, _, _, _, _, _, h => by
    rw [writeRows] at h
    cases h
    rfl
  | (i, rd) :: rest, s, rep, n, s2, rep2, n2, hall, h => by
    obtain ⟨fs, hobj, hdata⟩ := hall (i, rd) (List.mem_cons_self _ _)
    have hobj2 : rd = JVal.obj fs := hobj
    rw [writeRows, hobj2, pyGet_obj] at h
    dsimp only at h
    rw [if_neg (by rw [hdata]; exact Bool.false_ne_true)] at h
    rw [← hobj2] at h
    cases hw : writeCols sn (rs + i) rd cm s rep with
    | error e => rw [hw] at h; cases h
    | ok pr =>
      obtain ⟨s1, rep1⟩ := pr
      rw [hw] at h
      dsimp only at h
      have := writeRows_count (fun p hp => hall p (List.mem_cons_of_mem _ hp)) h
      rw [this]
      simp [Nat.add_assoc, Nat.add_comm 1]

lemma writeRows_count_le {sn : String} {cm : List Mapping} {rs : Nat} :
    ∀ {l : List (Nat × JVal)} {s : Sheet} {rep : FillReport} {n : Nat}
      {s2 : Sheet} {rep2 : FillReport} {n2 : Nat},
      writeRows sn cm rs l s rep n = .ok (s2, rep2, n2) → n2 ≤ n + l.length
  | [], _, _, _, _, _, _, h => by
    rw [writeRows] at h
    cases h
    exact Nat.le_refl _
  | (i, rd) :: rest, s, rep, n, s2, rep2, n2, h => by
    rw [writeRows] at h
    cases hg : pyGet rd "bed" (.str "") with
    | error e => rw [hg] at h; cases h
    | ok bed =>
      rw [hg] at h
      dsimp only at h
      by_cases hsb : isSummaryBed bed = true
      · rw [if_pos hsb] at h
        have := writeRows_count_le h
        simp only [List.length_cons]
        omega
      · rw [if_neg hsb] at h
        cases hw : writeCols sn (rs + i) rd cm s rep with
        | error e => rw [hw] at h; cases h
        | ok pr =>
          obtain ⟨s1, rep1⟩ := pr
          rw [hw] at h
          dsimp only at h
          have := writeRows_count_le h
          simp only [List.length_cons]
          omega

lemma writeRows_append {sn : String} {cm : List Mapping} {rs : Nat} :
    ∀ {l1 l2 : List (Nat × JVal)} {s : Sheet} {rep : FillReport} {n : Nat},
      writeRows sn cm rs (l1 ++ l2) s rep n =
        match writeRows sn cm rs l1 s rep n with
        | .error e => .error e
        | .ok (s1, rep1, n1) => writeRows sn cm rs l2 s1 rep1 n1
  | [], l2, s, rep, n => by rw [List.nil_append]; rfl
  | (i, rd) :: rest, l2, s, rep, n => by
    rw [List.cons_append, writeRows, writeRows]
    cases hg : pyGet rd "bed" (.str "") with
    | error e => rfl
    | ok bed =>
      dsimp only
      by_cases hsb : isSummaryBed bed = true
      · rw [if_pos hsb, if_pos hsb]
        exact writeRows_append
      · rw [if_neg hsb, if_neg hsb]
        cases hw : writeCols sn (rs + i) rd cm s rep with
        | error e => rfl
        | ok pr =>
          obtain ⟨s1, rep1⟩ := pr
          dsimp only
          exact writeRows_append

lemma enumFrom_fst_bounds {α : Type} :
    ∀ {l : List α} {k : Nat} {p : Nat × α},
      p ∈ List.enumFrom k l → k ≤ p.1 ∧ p.1 < k + l.length
  | [], _, _, hp => absurd hp (List.not_mem_nil _)
  | x :: rest, k, p, hp => by
    rcases List.mem_cons.mp hp with rfl | hp2
    · simp
    · have := enumFrom_fst_bounds hp2
      simp only [List.length_cons]
      omega

lemma pyGet_ok_obj {rd : JVal} {key : String} {default bed : JVal}
    (h : pyGet rd key default = .ok bed) :
    ∃ fs, rd = JVal.obj fs ∧ bed = (lookupField fs key).getD default := by
  cases rd with
  | obj fs =>
    rw [pyGet_obj] at h
    cases h
    exact ⟨fs, rfl, rfl⟩
  | null => cases h
  | str s => cases h
  | num n => cases h
  | bool b => cases h
  | arr xs => cases h

lemma writeRows_writes {sn : String} {cm : List Mapping} {rs : Nat} {col : String} {v : JVal}
    {m : Mapping} (hm : m ∈ cm) (hcolm : m.column = some col) (hcolne : col ≠ "")
    (hnodup : (cm.filterMap Mapping.column).Nodup) :
    ∀ {rows : List JVal} {k : Nat} {s : Sheet} {rep : FillReport} {n : Nat}
      {s2 : Sheet} {rep2 : FillReport} {n2 : Nat},
      (∀ rd ∈ rows, IsDataRow rd) →
      writeRows sn cm rs (List.enumFrom k rows) s rep n = .ok (s2, rep2, n2) →
      ∀ i (hi : i < rows.length),
        computeColValue m (rows.get ⟨i, hi⟩) = .ok (some v) →
        isFormula (s col (rs + k + i)) = false →
        s2 col (rs + k + i) = v
  | [], _, _, _, _, _, _, _, _, _, i, hi, _, _ => absurd hi (by simp)
  | rd :: rest, k, s, rep, n, s2, rep2, n2, hall, h, i, hi, hcomp, hform => by
    obtain ⟨fs, hobj, hdata⟩ := hall rd (List.mem_cons_self _ _)
    have hstep : List.enumFrom k (rd :: rest) = (k, rd) :: List.enumFrom (k + 1) rest := rfl
    rw [hstep, writeRows, hobj, pyGet_obj] at h
    dsimp only at h
    rw [if_neg (by rw [hdata]; exact Bool.false_ne_true)] at h
    rw [← hobj] at h
    cases hw : writeCols sn (rs + k) rd cm s rep with
    | error e => rw [hw] at h; cases h
    | ok pr =>
      obtain ⟨s1, rep1⟩ := pr
      rw [hw] at h
      dsimp only at h
      cases i with
      | zero =>
        have hv1 : s1 col (rs + k) = v :=
          writeCols_writes hm hcolm hcolne hcomp (by simpa using hform) hnodup hw
        have hother : ∀ p ∈ List.enumFrom (k + 1) rest, rs + p.1 ≠ rs + k := by
          intro p hp
          have := enumFrom_fst_bounds hp
          omega
        have hpres : s2 col (rs + k) = s1 col (rs + k) :=
          writeRows_other hother h
        simpa [hpres] using hv1
      | succ j =>
        have harith : rs + k + (j + 1) = rs + (k + 1) + j := by omega
        have hget : (rd :: rest).get ⟨j + 1, hi⟩
            = rest.get ⟨j, by simpa using Nat.lt_of_succ_lt_succ hi⟩ := rfl
        rw [harith]
        apply writeRows_writes hm hcolm hcolne hnodup
          (fun r hr => hall r (List.mem_cons_of_mem _ hr)) h j
          (by simpa using Nat.lt_of_succ_lt_succ hi)
        · rw [← hget]; exact hcomp
        · rw [writeCols_other_row (by omega) hw, ← harith]
          exact hform

lemma writeRows_report {sn : String} {cm : List Mapping} {rs : Nat} :
    ∀ {l : List (Nat × JVal)} {s : Sheet} {rep : FillReport} {n : Nat}
      {s2 : Sheet} {rep2 : FillReport} {n2 : Nat},
      writeRows sn cm rs l s rep n = .ok (s2, rep2, n2) →
      ∀ e ∈ rep2.filled, e ∈ rep.filled ∨
        ∃ p, p ∈ l ∧ IsDataRow p.2 ∧ ∃ col2, e.cellRef = some (col2, rs + p.1)
  | [], _, _, _, _, _, _, h => by
    rw [writeRows] at h
    cases h
    exact fun e he => Or.inl he
  | (i, rd) :: rest, s, rep, n, s2, rep2, n2, h => by
    rw [writeRows] at h
    cases hg : pyGet rd "bed" (.str "") with
    | error e => rw [hg] at h; cases h
    | ok bed =>
      rw [hg] at h
      dsimp only at h
      by_cases hsb : isSummaryBed bed = true
      · rw [if_pos hsb] at h
        intro e he
        rcases writeRows_report h e he with hold | ⟨p, hp, hpd, hc⟩
        · exact Or.inl hold
        · exact Or.inr ⟨p, List.mem_cons_of_mem _ hp, hpd, hc⟩
      · rw [if_neg hsb] at h
        obtain ⟨fs, hobj, hbed⟩ := pyGet_ok_obj hg
        cases hw : writeCols sn (rs + i) rd cm s rep with
        | error e => rw [hw] at h; cases h
        | ok pr =>
          obtain ⟨s1, rep1⟩ := pr
          rw [hw] at h
          dsimp only at h
          intro e he
          rcases writeRows_report h e he with hold | ⟨p, hp, hpd, hc⟩
          · rcases writeCols_report hw e hold with hold2 | ⟨col2, hc2⟩
            · exact Or.inl hold2
            · refine Or.inr ⟨(i, rd), List.mem_cons_self _ _, ⟨fs, hobj, ?_⟩, col2, hc2⟩
              rw [← hbed]
              exact Bool.not_eq_true _ ▸ (by simpa using hsb)
          · exact Or.inr ⟨p, List.mem_cons_of_mem _ hp, hpd, hc⟩

lemma enumFrom_snd_mem {α : Type} :
    ∀ {l : List α} {k : Nat} {p : Nat × α}, p ∈ List.enumFrom k l → p.2 ∈ l
  | [], _, _, hp => absurd hp (List.not_mem_nil _)
  | x :: rest, k, p, hp => by
    rcases List.mem_cons.mp hp with rfl | hp2
    · exact List.mem_cons_self _ _
    · exact List.mem_cons_of_mem _ (enumFrom_snd_mem hp2)

lemma findTotalRow_ge {sheet : Sheet} {row_start t : Nat}
    (h : findTotalRow sheet row_start = some t) : row_start ≤ t ∧ t < row_start + 50 := by
  have hmem : t ∈ List.range' row_start 50 := List.mem_of_find?_eq_some h
  exact List.mem_range'_1.mp hmem

/-- C4 (amended): when the Total anchor row is discovered at row t and
the source array does not hold more entries than the discovered
capacity, an array-block fill leaves every row at or below the anchor
unaltered except for the upward shift caused by deleting unused
capacity rows above the anchor: for some deletion count d bounded by
the capacity, the final sheet at row t - d + k equals the input sheet
at row t + k for every column and every k. The capacity bound on the
array length is necessary: the write loop uses the raw enumeration
index as the worksheet row, so longer arrays write onto and below the
anchor row. -/
theorem rows_below_anchor_shift_only
    (cfg : SheetConfig) (sheet : Sheet) (data : JVal) (rep0 : FillReport) (sn : String)
    (t : Nat) (s2 : Sheet) (rep2 : FillReport)
    (htot : findTotalRow sheet (cfg.row_start.getD 1) = some t)
    (hlen : ∀ xs, navigate data (cfg.array_source.getD "") = .arr xs →
        xs.length ≤ t - cfg.row_start.getD 1)
    (hok : fillArrayData sheet cfg data rep0 sn = .ok (s2, rep2)) :
    ∃ d, d ≤ t - cfg.row_start.getD 1
      ∧ ∀ c k, s2 c (t - d + k) = sheet c (t + k) := by
  have hge := findTotalRow_ge htot
  have hcap : arrayCapacity sheet cfg = t - cfg.row_start.getD 1 := by
    rw [arrayCapacity, htot]
  rw [fillArrayData] at hok
  rw [hcap] at hok
  have hclear : ∀ c k,
      clearPhase sheet
        (cfg.clear_columns.getD
          (((cfg.mappings.getD []).filterMap Mapping.column).filter (fun c => c ≠ "")))
        (cfg.row_start.getD 1) (t - cfg.row_start.getD 1) c (t + k) = sheet c (t + k) := by
    intro c k
    exact clearPhase_out (by omega) _ sheet
  cases hnav : navigate data (cfg.array_source.getD "") with
  | arr xs =>
    rw [hnav] at hok
    dsimp only at hok
    by_cases hemp : xs.isEmpty = true
    · rw [if_pos hemp] at hok
      simp only [Except.ok.injEq, Prod.mk.injEq] at hok
      obtain ⟨h1, _⟩ := hok
      refine ⟨0, by omega, ?_⟩
      intro c k
      have hk : t - 0 + k = t + k := by omega
      rw [hk, ← h1]
      exact hclear c k
    · rw [if_neg hemp] at hok
      cases hw : writeRows sn (cfg.mappings.getD []) (cfg.row_start.getD 1)
          (List.enumFrom 0 xs)
          (clearPhase sheet
            (cfg.clear_columns.getD
              (((cfg.mappings.getD []).filterMap Mapping.column).filter (fun c => c ≠ "")))
            (cfg.row_start.getD 1) (t - cfg.row_start.getD 1)) rep0 0 with
      | error e => rw [hw] at hok; cases hok
      | ok tr =>
        obtain ⟨sW, repW, rtf⟩ := tr
        rw [hw] at hok
        dsimp only at hok
        have hrtf : rtf ≤ xs.length := by
          have hl2 : (List.enumFrom 0 xs).length = xs.length := by simp
          have := writeRows_count_le hw
          omega
        have hxs : xs.length ≤ t - cfg.row_start.getD 1 := hlen xs hnav
        have hsW : ∀ c k, sW c (t + k) = sheet c (t + k) := by
          intro c k
          rw [writeRows_other ?hrows hw]
          · exact hclear c k
          case hrows =>
            intro p hp
            have := enumFrom_fst_bounds hp
            omega
        by_cases hif : (cfg.delete_empty_rows.getD true
            && decide (rtf < t - cfg.row_start.getD 1)) = true
        · rw [if_pos hif] at hok
          simp only [Except.ok.injEq, Prod.mk.injEq] at hok
          obtain ⟨h1, _⟩ := hok
          refine ⟨t - cfg.row_start.getD 1 - rtf, by omega, ?_⟩
          intro c k
          rw [← h1]
          simp only [deleteRows]
          rw [if_neg (by omega)]
          have hidx : t - (t - cfg.row_start.getD 1 - rtf) + k
              + (t - cfg.row_start.getD 1 - rtf) = t + k := by omega
          rw [hidx]
          exact hsW c k
        · rw [if_neg hif] at hok
          simp only [Except.ok.injEq, Prod.mk.injEq] at hok
          obtain ⟨h1, _⟩ := hok
          refine ⟨0, by omega, ?_⟩
          intro c k
          have hk : t - 0 + k = t + k := by omega
          rw [hk, ← h1]
          exact hsW c k
  | null =>
    rw [hnav] at hok
    dsimp only at hok
    simp only [Except.ok.injEq, Prod.mk.injEq] at hok
    obtain ⟨h1, _⟩ := hok
    exact ⟨0, by omega, fun c k => by
      have hk : t - 0 + k = t + k := by omega
      rw [hk, ← h1]; exact hclear c k⟩
  | str s =>
    rw [hnav] at hok
    dsimp only at hok
    simp only [Except.ok.injEq, Prod.mk.injEq] at hok
    obtain ⟨h1, _⟩ := hok
    exact ⟨0, by omega, fun c k => by
      have hk : t - 0 + k = t + k := by omega
      rw [hk, ← h1]; exact hclear c k⟩
  | num n =>
    rw [hnav] at hok
    dsimp only at hok
    simp only [Except.ok.injEq, Prod.mk.injEq] at hok
    obtain ⟨h1, _⟩ := hok
    exact ⟨0, by omega, fun c k => by
      have hk : t - 0 + k = t + k := by omega
      rw [hk, ← h1]; exact hclear c k⟩
  | bool b =>
    rw [hnav] at hok
    dsimp only at hok
    simp only [Except.ok.injEq, Prod.mk.injEq] at hok
    obtain ⟨h1, _⟩ := hok
    exact ⟨0, by omega, fun c k => by
      have hk : t - 0 + k = t + k := by omega
      rw [hk, ← h1]; exact hclear c k⟩
  | obj fs =>
    rw [hnav] at hok
    dsimp only at hok
    simp only [Except.ok.injEq, Prod.mk.injEq] at hok
    obtain ⟨h1, _⟩ := hok
    exact ⟨0, by omega, fun c k => by
      have hk : t - 0 + k = t + k := by omega
      rw [hk, ← h1]; exact hclear c k⟩

/-- C2 (amended): for an array-block fill with discovered capacity C
(anchor at row rs + C), a non-empty source array of N data rows
followed only by summary rows, and N at most C, the run writes each
data row i into capacity row rs + i (for every column whose value
resolves against a non-formula target), confines every new filled
report entry to those N rows, deletes the C - N unused trailing
capacity rows, and leaves the Total row at rs + N. The ordering
hypothesis is necessary: a summary row placed before a data row
consumes the enumeration index, shifting the write down and making the
trailing deletion remove written data. -/
theorem array_fill_contiguous_block
    (cfg : SheetConfig) (sheet : Sheet) (data : JVal) (rep0 : FillReport) (sn : String)
    (rs C N : Nat) (realRows summaryRows : List JVal) (s2 : Sheet) (rep2 : FillReport)
    (hrs : cfg.row_start.getD 1 = rs)
    (hdel : cfg.delete_empty_rows.getD true = true)
    (htot : findTotalRow sheet rs = some (rs + C))
    (harr : navigate data (cfg.array_source.getD "") = .arr (realRows ++ summaryRows))
    (hne : realRows ++ summaryRows ≠ [])
    (hreal : ∀ rd ∈ realRows, IsDataRow rd)
    (hsum : ∀ rd ∈ summaryRows, IsSummaryRow rd)
    (hN : realRows.length = N) (hNC : N ≤ C)
    (hok : fillArrayData sheet cfg data rep0 sn = .ok (s2, rep2)) :
    (∀ c k, s2 c (rs + N + k) = sheet c (rs + C + k))
    ∧ (∀ e ∈ rep2.filled, e ∈ rep0.filled
        ∨ ∃ col i, i < N ∧ e.cellRef = some (col, rs + i))
    ∧ (∀ i (hi : i < realRows.length) (m : Mapping) (col : String) (v : JVal),
        m ∈ cfg.mappings.getD [] → m.column = some col → col ≠ "" →
        ((cfg.mappings.getD []).filterMap Mapping.column).Nodup →
        computeColValue m (realRows.get ⟨i, hi⟩) = .ok (some v) →
        isFormula (sheet col (rs + i)) = false →
        s2 col (rs + i) = v) := by
  have hcap : arrayCapacity sheet cfg = C := by
    rw [arrayCapacity, hrs, htot]
    show rs + C - rs = C
    omega
  rw [fillArrayData, hrs, hcap, harr] at hok
  dsimp only at hok
  rw [if_neg (by simp [hne])] at hok
  rw [List.enumFrom_append] at hok
  simp only [Nat.zero_add] at hok
  rw [hN] at hok
  rw [writeRows_append] at hok
  have hallreal : ∀ p ∈ List.enumFrom 0 realRows, IsDataRow p.2 :=
    fun p hp => hreal p.2 (enumFrom_snd_mem hp)
  have hallsum : ∀ p ∈ List.enumFrom N summaryRows, IsSummaryRow p.2 :=
    fun p hp => hsum p.2 (enumFrom_snd_mem hp)
  cases hw1 : writeRows sn (cfg.mappings.getD []) rs (List.enumFrom 0 realRows)
      (clearPhase sheet
        (cfg.clear_columns.getD
          (((cfg.mappings.getD []).filterMap Mapping.column).filter (fun c => c ≠ "")))
        rs C) rep0 0 with
  | error e =>
    rw [hw1] at hok
    dsimp only at hok
    cases hok
  | ok tr =>
    obtain ⟨sW, repW, nW⟩ := tr
    rw [hw1] at hok
    dsimp only at hok
    have hnW : nW = N := by
      have := writeRows_count hallreal hw1
      simpa [hN] using this
    rw [writeRows_all_summary hallsum] at hok
    dsimp only at hok
    rw [hnW] at hok
    have hsW_upper : ∀ c k, sW c (rs + C + k) = sheet c (rs + C + k) := by
      intro c k
      rw [writeRows_other ?hrows hw1]
      · exact clearPhase_out (by omega) _ sheet
      case hrows =>
        intro p hp
        have hb := enumFrom_fst_bounds hp
        have hlen : (List.enumFrom (0 : Nat) realRows).length = N := by simp [hN]
        omega
    have hconc3 : ∀ i (hi : i < realRows.length) (m : Mapping) (col : String) (v : JVal),
        m ∈ cfg.mappings.getD [] → m.column = some col → col ≠ "" →
        ((cfg.mappings.getD []).filterMap Mapping.column).Nodup →
        computeColValue m (realRows.get ⟨i, hi⟩) = .ok (some v) →
        isFormula (sheet col (rs + i)) = false →
        sW col (rs + i) = v := by
      intro i hi m col v hm hcolm hcolne hnodup hcomp hform
      have hform1 : isFormula
          (clearPhase sheet
            (cfg.clear_columns.getD
              (((cfg.mappings.getD []).filterMap Mapping.column).filter (fun c => c ≠ "")))
            rs C col (rs + 0 + i)) = false := by
        have hzero : rs + 0 + i = rs + i := by omega
        rw [hzero]
        rcases clearPhase_cases rs C col (rs + i) _ sheet with h | h
        · rw [h]; exact hform
        · rw [h]; exact isFormula_null
      have := writeRows_writes hm hcolm hcolne hnodup hreal hw1 i hi hcomp hform1
      have hzero : rs + 0 + i = rs + i := by omega
      rwa [hzero] at this
    have hrep : ∀ e ∈ repW.filled, e ∈ rep0.filled
        ∨ ∃ col i, i < N ∧ e.cellRef = some (col, rs + i) := by
      intro e he
      rcases writeRows_report hw1 e he with hold | ⟨p, hp, _, col2, hc⟩
      · exact Or.inl hold
      · have hb := enumFrom_fst_bounds hp
        have hlen : (List.enumFrom (0 : Nat) realRows).length = N := by simp [hN]
        exact Or.inr ⟨col2, p.1, by omega, hc⟩
    rcases Nat.lt_or_ge N C with hNlt | hNge
    · rw [if_pos (by rw [hdel]; simpa using hNlt)] at hok
      simp only [Except.ok.injEq, Prod.mk.injEq] at hok
      obtain ⟨h1, h2⟩ := hok
      refine ⟨?_, ?_, ?_⟩
      · intro c k
        rw [← h1]
        simp only [deleteRows]
        rw [if_neg (by omega)]
        have hidx : rs + N + k + (C - N) = rs + C + k := by omega
        rw [hidx]
        exact hsW_upper c k
      · intro e he
        rw [← h2] at he
        exact hrep e he
      · intro i hi m col v hm hcolm hcolne hnodup hcomp hform
        rw [← h1]
        simp only [deleteRows]
        rw [if_pos (by omega)]
        exact hconc3 i hi m col v hm hcolm hcolne hnodup hcomp hform
    · have hNeq : N = C := by omega
      rw [if_neg (by simp [hNeq])] at hok
      simp only [Except.ok.injEq, Prod.mk.injEq] at hok
      obtain ⟨h1, h2⟩ := hok
      refine ⟨?_, ?_, ?_⟩
      · intro c k
        rw [← h1, hNeq]
        exact hsW_upper c k
      · intro e he
        rw [← h2] at he
        exact hrep e he
      · intro i hi m col v hm hcolm hcolne hnodup hcomp hform
        rw [← h1]
        exact hconc3 i hi m col v hm hcolm hcolne hnodup hcomp hform

/-- Reachability of a value inside a JSON tree: the root itself, an
element of a reachable list, or a field value of a reachable dict. -/
inductive Reach : JVal → JVal → Prop
  | refl (v : JVal) : Reach v v
  | inArr {root : JVal} {xs : List JVal} {w : JVal} :
      Reach root (JVal.arr xs) → w ∈ xs → Reach root w
  | inObj {root : JVal} {fs : List (String × JVal)} {k : String} {w : JVal} :
      Reach root (JVal.obj fs) → (k, w) ∈ fs → Reach root w

lemma lookupField_mem {key : String} {v : JVal} :
    ∀ {fs : List (String × JVal)}, lookupField fs key = some v → (key, v) ∈ fs
  | [], h => by simp [lookupField] at h
  | (k2, v2) :: rest, h => by
    by_cases hk : (k2 == key) = true
    · have hkk : k2 = key := by simpa using hk
      rw [lookupField, if_pos hk] at h
      cases h
      rw [hkk]
      exact List.mem_cons_self _ _
    · rw [lookupField, if_neg hk] at h
      exact List.mem_cons_of_mem _ (lookupField_mem h)

lemma navStep_null (part : String) : navStep JVal.null part = JVal.null := by
  cases hm : matchArrayPart part with
  | none => simp [navStep, hm]
  | some kv =>
    obtain ⟨key, index⟩ := kv
    simp [navStep, hm]

lemma reach_navStep {root cur : JVal} (part : String) (h : Reach root cur) :
    navStep cur part = JVal.null ∨ Reach root (navStep cur part) := by
  cases hm : matchArrayPart part with
  | none =>
    cases cur with
    | obj fs =>
      cases hl : lookupField fs part with
      | none => left; simp [navStep, hm, hl]
      | some v =>
        right
        have hr : Reach root v := Reach.inObj h (lookupField_mem hl)
        simpa [navStep, hm, hl] using hr
    | null => left; simp [navStep, hm]
    | str s => left; simp [navStep, hm]
    | num n => left; simp [navStep, hm]
    | bool b => left; simp [navStep, hm]
    | arr xs => left; simp [navStep, hm]
  | some kv =>
    obtain ⟨key, index⟩ := kv
    cases cur with
    | obj fs =>
      cases hl : lookupField fs key with
      | none => left; simp [navStep, hm, hl]
      | some v =>
        cases v with
        | arr xs =>
          by_cases hi : index < xs.length
          · right
            have hreach : Reach root (JVal.arr xs) :=
              Reach.inObj h (lookupField_mem hl)
            have hr : Reach root (xs.get ⟨index, hi⟩) :=
              Reach.inArr hreach (xs.get_mem index hi)
            simpa [navStep, hm, hl, hi] using hr
          · left; simp [navStep, hm, hl, hi]
        | null => left; simp [navStep, hm, hl]
        | str s => left; simp [navStep, hm, hl]
        | num n => left; simp [navStep, hm, hl]
        | bool b => left; simp [navStep, hm, hl]
        | obj fs2 => left; simp [navStep, hm, hl]
    | arr xs =>
      by_cases hd : key.toList.all Char.isDigit = true
      · by_cases hi : digitsToNat key.toList < xs.length
        · right
          have heval : navStep (JVal.arr xs) part = xs.get ⟨digitsToNat key.toList, hi⟩ := by
            simp only [navStep, hm]
            rw [if_pos hd, dif_pos hi]
          rw [heval]
          exact Reach.inArr h (xs.get_mem _ hi)
        · left
          have heval : navStep (JVal.arr xs) part = JVal.null := by
            simp only [navStep, hm]
            rw [if_pos hd, dif_neg hi]
          rw [heval]
      · left
        have heval : navStep (JVal.arr xs) part = JVal.null := by
          simp only [navStep, hm]
          rw [if_neg hd]
        rw [heval]
    | null => left; simp [navStep, hm]
    | str s => left; simp [navStep, hm]
    | num n => left; simp [navStep, hm]
    | bool b => left; simp [navStep, hm]

lemma reach_navFold {root : JVal} :
    ∀ (parts : List String) {cur : JVal}, (cur = JVal.null ∨ Reach root cur) →
      (parts.foldl navStep cur = JVal.null ∨ Reach root (parts.foldl navStep cur))
  | [], cur, h => by simpa using h
  | p :: rest, cur, h => by
    rw [List.foldl_cons]
    apply reach_navFold rest
    rcases h with h | h
    · subst h
      left
      exact navStep_null p
    · exact reach_navStep p h

/-- C3: PathNavigator resolution is total and sound. The embedding of
_navigate_json_path is a total Lean function (every partial operation
of the source - dict lookup, list indexing, int parsing of a matched
digit run - is guarded in the code, so no exception path exists), and
for every data value and every path string it returns either None or a
value reachable inside the data tree, on malformed paths and
wrong-shaped data included. -/
theorem navigate_total_and_sound (data : JVal) (path : String) :
    navigate data path = JVal.null ∨ Reach data (navigate data path) := by
  by_cases h0 : (data.isNull || path == "") = true
  · left
    rw [navigate.eq_def, if_pos h0]
  · cases data with
    | obj fs =>
      cases hl : lookupField fs path with
      | some v =>
        right
        have heval : navigate (JVal.obj fs) path = v := by
          rw [navigate, if_neg h0, hl]
        rw [heval]
        exact Reach.inObj (Reach.refl _) (lookupField_mem hl)
      | none =>
        have heval : navigate (JVal.obj fs) path
            = (splitPath path).foldl navStep (JVal.obj fs) := by
          rw [navigate, if_neg h0, hl]
        rw [heval]
        exact reach_navFold _ (Or.inr (Reach.refl _))
    | null =>
      have heval : navigate JVal.null path
          = (splitPath path).foldl navStep JVal.null := by
        rw [navigate, if_neg h0]
      rw [heval]
      exact reach_navFold _ (Or.inr (Reach.refl _))
    | str s =>
      have heval : navigate (JVal.str s) path
          = (splitPath path).foldl navStep (JVal.str s) := by
        rw [navigate, if_neg h0]
      rw [heval]
      exact reach_navFold _ (Or.inr (Reach.refl _))
    | num n =>
      have heval : navigate (JVal.num n) path
          = (splitPath path).foldl navStep (JVal.num n) := by
        rw [navigate, if_neg h0]
      rw [heval]
      exact reach_navFold _ (Or.inr (Reach.refl _))
    | bool b =>
      have heval : navigate (JVal.bool b) path
          = (splitPath path).foldl navStep (JVal.bool b) := by
        rw [navigate, if_neg h0]
      rw [heval]
      exact reach_navFold _ (Or.inr (Reach.refl _))
    | arr xs =>
      have heval : navigate (JVal.arr xs) path
          = (splitPath path).foldl navStep (JVal.arr xs) := by
        rw [navigate, if_neg h0]
      rw [heval]
      exact reach_navFold _ (Or.inr (Reach.refl _))

/-- C7 counterexample: the claim ranges over every path string, but the
code returns None before the direct-key check whenever the path is
empty, even when the empty string is a literal top-level key of the
dict, so the key value 42 is not returned. -/
theorem direct_key_empty_path_cex :
    lookupField [("", JVal.num 42)] "" = some (JVal.num 42)
      ∧ navigate (JVal.obj [("", JVal.num 42)]) "" ≠ JVal.num 42 := by
  constructor
  · rfl
  · have hnull : navigate (JVal.obj [("", JVal.num 42)]) "" = JVal.null := rfl
    rw [hnull]
    intro h
    exact JVal.noConfusion h

/-- C7 (amended): for every dict and every nonempty path string that is
itself a literal top-level key of the dict, resolution returns that key
value directly, before and instead of any dot splitting. The
nonemptiness restriction is forced by the guard the code runs first:
an empty path returns None unconditionally. -/
theorem direct_key_lookup (fs : List (String × JVal)) (path : String) (v : JVal)
    (hpath : path ≠ "") (hkey : lookupField fs path = some v) :
    navigate (JVal.obj fs) path = v := by
  rw [navigate]
  rw [if_neg (by simp [hpath, JVal.isNull])]
  rw [hkey]

/-- Witness for direct_key_lookup at the dotted literal key the spec
gives as its example. -/
theorem direct_key_lookup_witness :
    navigate (JVal.obj [("unitMix.units", JVal.num 3)]) "unitMix.units" = JVal.num 3 :=
  direct_key_lookup [("unitMix.units", JVal.num 3)] "unitMix.units" (JVal.num 3)
    (by decide) rfl

/-- C10: a fill invoked with no mappings argument and no previously
loaded mappings returns the no-mappings error immediately, with an
empty effect trace: no copy of the template is made and nothing is
saved, so no output file is created and the filesystem is unchanged. -/
theorem fill_no_mappings_early_error (tf : JVal → String → JVal) (template : Workbook)
    (json_data : JVal) (output_path : String) :
    fill tf template json_data output_path none none
      = (.error "No field mappings provided or loaded", []) := rfl

lemma find?_congr {α : Type} {p q : α → Bool} :
    ∀ {l : List α}, (∀ x ∈ l, p x = q x) → l.find? p = l.find? q
  | [], _ => rfl
  | x :: xs, h => by
    have hx := h x (List.mem_cons_self x xs)
    rw [List.find?_cons, List.find?_cons, ← hx]
    cases hpx : p x
    · exact find?_congr (fun y hy => h y (List.mem_cons_of_mem x hy))
    · rfl

/-- C9: the Total-row scan of an array block always reads column B over
exactly the 50 rows starting at row_start, whatever the configuration
says: two sheets agreeing on that window of column B produce the same
scan result; and when no cell of the window normalizes (strip, lower)
to total or totals, the scan finds nothing and the capacity falls back
to the configured max_rows, which defaults to 25 when the
configuration leaves it out. -/
theorem total_scan_fixed_window (cfg : SheetConfig) (s1 s2 : Sheet)
    (hagree : ∀ r, cfg.row_start.getD 1 ≤ r → r < cfg.row_start.getD 1 + 50 →
      s1 "B" r = s2 "B" r)
    (hnone : ∀ r, cfg.row_start.getD 1 ≤ r → r < cfg.row_start.getD 1 + 50 →
      s1 "B" r = JVal.null
        ∨ (pyLower (pyStrip (pyStr (s1 "B" r))) ≠ "total"
            ∧ pyLower (pyStrip (pyStr (s1 "B" r))) ≠ "totals")) :
    findTotalRow s1 (cfg.row_start.getD 1) = findTotalRow s2 (cfg.row_start.getD 1)
    ∧ findTotalRow s1 (cfg.row_start.getD 1) = none
    ∧ arrayCapacity s1 cfg = cfg.max_rows.getD 25
    ∧ (cfg.max_rows = none → arrayCapacity s1 cfg = 25) := by
  have hfind : findTotalRow s1 (cfg.row_start.getD 1) = none := by
    rw [findTotalRow]
    apply List.find?_eq_none.mpr
    intro r hr
    have hb := List.mem_range'_1.mp hr
    rcases hnone r hb.1 hb.2 with hnull | ⟨h1, h2⟩
    · rw [hnull]
      simp
    · cases hcell : s1 "B" r with
      | null => simp
      | str s =>
        rw [hcell] at h1 h2
        simp only [Bool.or_eq_true, beq_iff_eq]
        push_neg
        exact ⟨h1, h2⟩
      | num n =>
        rw [hcell] at h1 h2
        simp only [Bool.or_eq_true, beq_iff_eq]
        push_neg
        exact ⟨h1, h2⟩
      | bool b =>
        rw [hcell] at h1 h2
        simp only [Bool.or_eq_true, beq_iff_eq]
        push_neg
        exact ⟨h1, h2⟩
      | arr xs =>
        rw [hcell] at h1 h2
        simp only [Bool.or_eq_true, beq_iff_eq]
        push_neg
        exact ⟨h1, h2⟩
      | obj fs =>
        rw [hcell] at h1 h2
        simp only [Bool.or_eq_true, beq_iff_eq]
        push_neg
        exact ⟨h1, h2⟩
  refine ⟨?_, hfind, ?_, ?_⟩
  · rw [findTotalRow, findTotalRow]
    apply find?_congr
    intro r hr
    have hb := List.mem_range'_1.mp hr
    rw [hagree r hb.1 hb.2]
  · rw [arrayCapacity, hfind]
  · intro hmr
    rw [arrayCapacity, hfind, hmr]
    rfl

/-- Configuration used by the scan-window witness: row_start 5 and no
configured max_rows. -/
def scanCfg : SheetConfig :=
  { mappings := none, array_source := some "units", row_start := some 5,
    max_rows := none, clear_columns := none, delete_empty_rows := none }

/-- Sheet used by the scan-window witness: Total markers only outside
the scanned window or outside column B. -/
def scanSheet : Sheet := fun c r =>
  if c == "B" && r == 60 then JVal.str "Total"
  else if c == "C" && r == 10 then JVal.str "Total" else JVal.null

/-- Witness for total_scan_fixed_window: a blank sheet against a sheet
holding Total markers only outside the window or outside column B; the
scan ignores both, finds nothing, and the capacity is the default 25. -/
theorem total_scan_fixed_window_witness :
    findTotalRow (fun _ _ => JVal.null) (scanCfg.row_start.getD 1)
      = findTotalRow scanSheet (scanCfg.row_start.getD 1)
    ∧ findTotalRow (fun _ _ => JVal.null) (scanCfg.row_start.getD 1) = none
    ∧ arrayCapacity (fun _ _ => JVal.null) scanCfg = scanCfg.max_rows.getD 25
    ∧ (scanCfg.max_rows = none → arrayCapacity (fun _ _ => JVal.null) scanCfg = 25) :=
  total_scan_fixed_window scanCfg (fun _ _ => JVal.null) scanSheet
    (fun r h1 h2 => by
      have hr5 : 5 ≤ r ∧ r < 55 := by
        constructor <;> simpa [scanCfg] using (by assumption : _)
      rw [scanSheet]
      rw [if_neg (by simp; omega), if_neg (by simp)]
    )
    (fun r _ _ => Or.inl rfl)

lemma analyzeSheets_error {f : String → Except String SheetSchema} :
    ∀ {names : List String}, (∃ n ∈ names, ∃ e, f n = .error e) →
      ∃ e2, analyzeSheets f names = .error e2
  | [], h => by
    obtain ⟨n, hn, _⟩ := h
    exact absurd hn (List.not_mem_nil _)
  | a :: rest, h => by
    obtain ⟨n, hn, e, he⟩ := h
    cases hfa : f a with
    | error e2 =>
      exact ⟨e2, by rw [analyzeSheets, hfa]⟩
    | ok s =>
      rcases List.mem_cons.mp hn with rfl | hn2
      · rw [hfa] at he
        cases he
      · obtain ⟨e2, h2⟩ := analyzeSheets_error ⟨n, hn2, e, he⟩
        exact ⟨e2, by rw [analyzeSheets, hfa, h2]⟩

/-- C5 counterexample: the per-sheet loop of analyze has no exception
handling of its own, so when the first of two sheets raises, the whole
analysis collapses to the single error object: no error entry stands
in place of the failing sheet and the second sheet is never analyzed,
against the claim that a partial schema survives one bad sheet. -/
theorem analyze_sheet_error_aborts_cex :
    analyze (.ok ["A", "B"])
        (fun n => if n == "A" then .error "boom" else .ok ⟨n, 1, 1, 1⟩) "t"
      = .errorObj "boom" "t" := rfl

/-- C5 (amended): during analysis, a single sheet that fails to read
aborts the whole run: the result is the single error object carrying
the exception text and the template name, with no partial schema; the
same single error object is also what total unreadability of the file
produces. -/
theorem analyze_sheet_failure_single_error
    (names : List String) (f : String → Except String SheetSchema) (tname : String)
    (hfail : ∃ n ∈ names, ∃ e, f n = .error e) :
    (∃ e, analyze (.ok names) f tname = .errorObj e tname)
    ∧ (∀ le, analyze (.error le) f tname = .errorObj le tname) := by
  constructor
  · obtain ⟨e2, h2⟩ := analyzeSheets_error hfail
    exact ⟨e2, by rw [analyze, h2]⟩
  · intro le
    rw [analyze]

/-- Witness for analyze_sheet_failure_single_error on a concrete
workbook whose first sheet raises. -/
theorem analyze_sheet_failure_single_error_witness :
    (∃ e, analyze (.ok ["A", "B"])
        (fun n => if n == "A" then .error "boom" else .ok ⟨n, 1, 1, 1⟩) "t"
      = .errorObj e "t")
    ∧ (∀ le, analyze (.error le)
        (fun n => if n == "A" then .error "boom" else .ok ⟨n, 1, 1, 1⟩) "t"
      = .errorObj le "t") :=
  analyze_sheet_failure_single_error ["A", "B"]
    (fun n => if n == "A" then .error "boom" else .ok ⟨n, 1, 1, 1⟩) "t"
    ⟨"A", by simp, "boom", rfl⟩

/-- Sheet of the header-detection counterexample: nonempty text only in
the tenth column of row 1, nothing bold. -/
def cexSheet6 : ASheet :=
  { maxRow := 1, maxCol := 10,
    cell := fun r c =>
      if r == 1 && c == 10 then { value := JVal.str "X", bold := false }
      else { value := JVal.null, bold := false } }

/-- C6 counterexample: the claim says row 1 qualifies as a header when
any of its first ten columns holds nonempty text, but the scan runs
over range(1, min(10, max_column + 1)), that is over the first nine
columns only, so text in column 10 alone does not mark row 1. -/
theorem header_row_tenth_column_cex :
    isNonEmptyText (cexSheet6.cell 1 10).value = true
      ∧ 10 ≤ cexSheet6.maxCol
      ∧ isHeaderRow cexSheet6 1 = false := by
  refine ⟨rfl, by decide, rfl⟩

/-- C6 (amended): header-row detection marks row 1 when any of its
first NINE columns (clipped to the sheet width) holds nonempty text,
and marks any of the first NINE rows whose first NINETEEN columns
contain more bold text cells than half of all text cells; the column
and row windows are one short of the stated ten, ten and twenty
because the scans use exclusive Python ranges capped at min(10, ...)
and min(20, ...). -/
theorem header_row_detection (s : ASheet) (r : Nat) (hrow : 1 ≤ s.maxRow) :
    isHeaderRow s r = true ↔
      ((r = 1 ∧ ∃ c, 1 ≤ c ∧ c ≤ 9 ∧ c ≤ s.maxCol
          ∧ isNonEmptyText (s.cell 1 c).value = true)
       ∨ (1 ≤ r ∧ r ≤ 9 ∧ r ≤ s.maxRow ∧ 0 < rowTextCount s r
            ∧ rowTextCount s r < 2 * rowBoldTextCount s r)) := by
  rw [isHeaderRow]
  simp only [Bool.or_eq_true, Bool.and_eq_true, beq_iff_eq, decide_eq_true_eq]
  constructor
  · rintro (⟨hr1, hfr⟩ | ⟨⟨hge, hle⟩, hb⟩)
    · left
      refine ⟨hr1, ?_⟩
      rw [firstRowHeader] at hfr
      simp only [Bool.and_eq_true, decide_eq_true_eq, List.any_eq_true] at hfr
      obtain ⟨_, c, hc, ht⟩ := hfr
      have hcb := List.mem_range'_1.mp hc
      exact ⟨c, by omega, by omega, by omega, ht⟩
    · right
      rw [boldHeaderRow] at hb
      simp only [Bool.and_eq_true, decide_eq_true_eq] at hb
      exact ⟨hge, by omega, by omega, hb.1, hb.2⟩
  · rintro (⟨hr1, c, hc1, hc9, hcmax, ht⟩ | ⟨hge, hle9, hlemax, hpos, hlt⟩)
    · left
      refine ⟨hr1, ?_⟩
      rw [firstRowHeader]
      simp only [Bool.and_eq_true, decide_eq_true_eq, List.any_eq_true]
      refine ⟨by omega, c, ?_, ht⟩
      apply List.mem_range'_1.mpr
      omega
    · right
      refine ⟨⟨hge, by omega⟩, ?_⟩
      rw [boldHeaderRow]
      simp only [Bool.and_eq_true, decide_eq_true_eq]
      exact ⟨hpos, hlt⟩

/-- Sheet of the header-detection witness: a label in column 3 of
row 1. -/
def wsheet6 : ASheet :=
  { maxRow := 3, maxCol := 5,
    cell := fun r c =>
      if r == 1 && c == 3 then { value := JVal.str "Name", bold := false }
      else { value := JVal.null, bold := false } }

/-- Witness for header_row_detection: text within the first nine
columns of row 1 marks it as a header row. -/
theorem header_row_detection_witness : isHeaderRow wsheet6 1 = true :=
  (header_row_detection wsheet6 1 (by decide)).mpr
    (Or.inl ⟨rfl, 3, by decide, by decide, by decide, rfl⟩)

/-- C1: formula cells are immutable fill targets. For any cell (c, r)
currently holding a formula: a scalar mapping run leaves its content
unchanged, never reports it filled, and when it is the mapping target
the outcome is external, skipped for a missing value, or skipped with
the formula-protection reason; the array clearing phase leaves it
unchanged; and the array per-column write loop leaves it unchanged.
Content therefore survives any number of repeated fills (row deletion
can shift a formula cell upward, which moves but does not rewrite it;
see the anchor-shift theorem). -/
theorem formula_cells_never_overwritten (c : String) (r : Nat) :
    (∀ (tf : JVal → String → JVal) (sheet : Sheet) (m : Mapping) (data fj : JVal),
        isFormula (sheet c r) = true →
        (fillCell tf sheet m data fj).1 c r = sheet c r
        ∧ (m.cell = some (c, r) →
            ((fillCell tf sheet m data fj).2 = .external
              ∨ (∃ p, m.json_path = some p
                  ∧ (fillCell tf sheet m data fj).2
                    = .skipped ("No value found at path: " ++ p))
              ∨ (fillCell tf sheet m data fj).2
                  = .skipped "Cell contains formula, not overwriting"))
        ∧ (m.cell = some (c, r) → ∀ v, (fillCell tf sheet m data fj).2 ≠ .filled v))
    ∧ (∀ (sheet : Sheet) (cols : List String) (rs mr : Nat),
        isFormula (sheet c r) = true → clearPhase sheet cols rs mr c r = sheet c r)
    ∧ (∀ (sn : String) (cm : List Mapping) (rs : Nat) (l : List (Nat × JVal))
        (sheet : Sheet) (rep : FillReport) (n : Nat) (s2 : Sheet) (rep2 : FillReport)
        (n2 : Nat), isFormula (sheet c r) = true →
        writeRows sn cm rs l sheet rep n = .ok (s2, rep2, n2) → s2 c r = sheet c r) := by
  refine ⟨?_, fun sheet cols rs mr h => clearPhase_formula cols sheet h,
    fun sn cm rs l sheet rep n s2 rep2 n2 h hw => writeRows_formula h hw⟩
  intro tf sheet m data fj hform
  rw [fillCell]
  cases hjp : m.json_path with
  | none =>
    exact ⟨rfl, fun _ => Or.inl rfl, fun _ v h => CellOutcome.noConfusion h⟩
  | some p =>
    dsimp only
    by_cases hsrc : (m.source.getD "pdf_extract" == "external") = true
    · rw [if_pos hsrc]
      exact ⟨rfl, fun _ => Or.inl rfl, fun _ v h => CellOutcome.noConfusion h⟩
    · rw [if_neg hsrc]
      by_cases hval : (resolveValue tf m p data fj).isNull = true
      · rw [if_pos hval]
        exact ⟨rfl, fun _ => Or.inr (Or.inl ⟨p, rfl, rfl⟩),
          fun _ v h => CellOutcome.noConfusion h⟩
      · rw [if_neg hval]
        cases hcell : m.cell with
        | none =>
          dsimp only
          refine ⟨rfl, fun hc => ?_, fun hc v h => ?_⟩
          · exact Option.noConfusion hc
          · exact Option.noConfusion hc
        | some pr =>
          obtain ⟨c2, r2⟩ := pr
          dsimp only
          by_cases hf : isFormula (sheet c2 r2) = true
          · rw [if_pos hf]
            exact ⟨rfl, fun _ => Or.inr (Or.inr rfl),
              fun _ v h => CellOutcome.noConfusion h⟩
          · rw [if_neg hf]
            have hne : (c2, r2) ≠ (c, r) := by
              intro he
              cases he
              exact hf hform
            refine ⟨?_, fun hc => ?_, fun hc v h => ?_⟩
            · apply setCell_other
              by_contra hcon
              push_neg at hcon
              exact hne (by rw [hcon.1, hcon.2])
            · cases hc
              exact absurd hform (by simpa using hf)
            · cases hc
              exact absurd hform (by simpa using hf)

/-- Witness for formula_cells_never_overwritten: a mapping targeting a
cell holding a SUM formula leaves the cell unchanged. -/
theorem formula_cells_never_overwritten_witness :
    (fillCell (fun v _ => v)
        (fun cl rw => if cl == "B" && rw == 2 then JVal.str "=SUM(A1:A10)" else JVal.null)
        { emptyMapping with cell := some ("B", 2), json_path := some "owner.name" }
        (JVal.obj [("owner", JVal.obj [("name", JVal.str "Acme LLC")])]) JVal.null).1
      "B" 2
    = (fun cl rw => if cl == "B" && rw == 2 then JVal.str "=SUM(A1:A10)" else JVal.null)
        "B" 2 :=
  ((formula_cells_never_overwritten "B" 2).1 (fun v _ => v)
    (fun cl rw => if cl == "B" && rw == 2 then JVal.str "=SUM(A1:A10)" else JVal.null)
    { emptyMapping with cell := some ("B", 2), json_path := some "owner.name" }
    (JVal.obj [("owner", JVal.obj [("name", JVal.str "Acme LLC")])]) JVal.null rfl).1

/-- C8: the bed-bath-label transform. A source row whose bed and bath
fields are numbers produces the label built from their truncated
integer parts; a row where either field is missing or not a number
produces no value, and a produced no-value writes nothing for that
column, leaving the sheet and the report untouched (no placeholder);
a produced value is written whenever the target is not a formula. -/
theorem bed_bath_label_spec (m : Mapping) (hm : m.transform = some "bed_bath_label") :
    (∀ (fs : List (String × JVal)) (bed bath : Int),
        lookupField fs "bed" = some (.num bed) →
        lookupField fs "bath" = some (.num bath) →
        computeColValue m (.obj fs)
          = .ok (some (.str (toString bed ++ "B/" ++ toString bath ++ "Ba"))))
    ∧ (∀ fs : List (String × JVal),
        isPyNumber ((lookupField fs "bed").getD .null) = false
          ∨ isPyNumber ((lookupField fs "bath").getD .null) = false →
        computeColValue m (.obj fs) = .ok none)
    ∧ (∀ (sn : String) (row : Nat) (rd : JVal) (s : Sheet) (rep : FillReport),
        computeColValue m rd = .ok none →
        writeCols sn row rd [m] s rep = .ok (s, rep))
    ∧ (∀ (sn : String) (row : Nat) (rd : JVal) (s : Sheet) (rep : FillReport)
        (col : String) (v : JVal),
        m.column = some col → col ≠ "" →
        computeColValue m rd = .ok (some v) →
        isFormula (s col row) = false →
        ∃ rep2, writeCols sn row rd [m] s rep = .ok (setCell s col row v, rep2)) := by
  refine ⟨?_, ?_, ?_, ?_⟩
  · intro fs bed bath hbed hbath
    rw [computeColValue, if_pos (by rw [hm]; rfl)]
    rw [pyGet_obj, pyGet_obj]
    dsimp only
    rw [hbed, hbath]
    simp only [Option.getD_some]
    rw [if_pos (by rfl)]
    rfl
  · intro fs hnot
    rw [computeColValue, if_pos (by rw [hm]; rfl)]
    rw [pyGet_obj, pyGet_obj]
    dsimp only
    rcases hnot with h | h
    · rw [if_neg (by simp [h])]
    · rw [if_neg (by simp [h])]
  · intro sn row rd s rep hnone
    rw [writeCols]
    by_cases hcol : (m.column.getD "" == "") = true
    · rw [if_pos hcol, writeCols]
    · rw [if_neg hcol, hnone, writeCols]
  · intro sn row rd s rep col v hcol hcolne hsome hform
    rw [writeCols, if_neg (by simp [hcol, hcolne]), hsome]
    dsimp only
    rw [hcol]
    simp only [Option.getD_some]
    rw [if_neg (by simp [hform]), writeCols]
    exact ⟨_, rfl⟩

/-- Mapping used by the bed-bath-label witness. -/
def bedBathMapping : Mapping :=
  { emptyMapping with transform := some "bed_bath_label", column := some "A" }

/-- Witness for bed_bath_label_spec: bed 2 and bath 1 yield 2B/1Ba, and
a non-numeric bed yields no value. -/
theorem bed_bath_label_spec_witness :
    computeColValue bedBathMapping (.obj [("bed", JVal.num 2), ("bath", JVal.num 1)])
      = .ok (some (.str "2B/1Ba"))
    ∧ computeColValue bedBathMapping
        (.obj [("bed", JVal.str "studio"), ("bath", JVal.num 1)])
      = .ok none :=
  ⟨by
    have h := (bed_bath_label_spec bedBathMapping rfl).1
      [("bed", JVal.num 2), ("bath", JVal.num 1)] 2 1 rfl rfl
    simpa using h,
   (bed_bath_label_spec bedBathMapping rfl).2.1
    [("bed", JVal.str "studio"), ("bath", JVal.num 1)] (Or.inl rfl)⟩

/-- C2 counterexample: capacity 2 (anchor at row 7), a summary row
followed by one data row with rent 7. The claim puts the data row in
the next free capacity row, C5, with one trailing row deleted; the
code instead writes it at C6 (the raw enumeration index) and then
deletes row 6 as unused, so C5 ends blank and the value 7 survives
nowhere. -/
theorem array_fill_summary_gap_cex :
    findTotalRow cexSheet2 5 = some 7
    ∧ (fillArrayData cexSheet2 cexCfg2 cexData2 emptyReport "S").map (fun p => p.1 "C" 5)
        = .ok JVal.null
    ∧ (fillArrayData cexSheet2 cexCfg2 cexData2 emptyReport "S").map (fun p => p.1 "C" 5)
        ≠ .ok (JVal.num 7) := by
  refine ⟨rfl, rfl, ?_⟩
  have h0 : (fillArrayData cexSheet2 cexCfg2 cexData2 emptyReport "S").map
      (fun p => p.1 "C" 5) = .ok JVal.null := rfl
  rw [h0]
  intro h
  exact JVal.noConfusion (Except.ok.inj h)

/-- Sheet of the contiguous-block witness: anchor at B7 with C at 50,
capacity 2. -/
def w2Sheet : Sheet := fun c r =>
  if c == "B" && r == 7 then .str "Total"
  else if c == "C" && r == 7 then .num 50
  else .null

/-- Configuration of the contiguous-block witness. -/
def w2Cfg : SheetConfig :=
  { mappings := some [{ emptyMapping with column := some "C", json_field := some "rent" }],
    array_source := some "units", row_start := some 5, max_rows := none,
    clear_columns := none, delete_empty_rows := none }

/-- Data row of the contiguous-block witness. -/
def w2Real : JVal := .obj [("bed", .num 1), ("rent", .num 7)]

/-- Summary row of the contiguous-block witness. -/
def w2Summary : JVal := .obj [("bed", .str "Total"), ("rent", .num 99)]

/-- Source document of the contiguous-block witness: the data row first,
the summary row after it. -/
def w2Data : JVal := .obj [("units", .arr [w2Real, w2Summary])]

/-- Witness for array_fill_contiguous_block: one data row before one
summary row against capacity 2 ends with rent 7 in C5, the anchor
shifted from row 7 to row 6, and the anchor-row value 50 now in C6. -/
theorem array_fill_contiguous_block_witness :
    ∃ (s2 : Sheet) (rep2 : FillReport),
      fillArrayData w2Sheet w2Cfg w2Data emptyReport "S" = .ok (s2, rep2)
      ∧ s2 "B" 6 = JVal.str "Total" ∧ s2 "C" 6 = JVal.num 50
      ∧ s2 "C" 5 = JVal.num 7 := by
  have hisok : (fillArrayData w2Sheet w2Cfg w2Data emptyReport "S").isOk = true := rfl
  cases hok : fillArrayData w2Sheet w2Cfg w2Data emptyReport "S" with
  | error e => rw [hok] at hisok; cases hisok
  | ok pr =>
    obtain ⟨s2, rep2⟩ := pr
    have hmain := array_fill_contiguous_block w2Cfg w2Sheet w2Data emptyReport "S"
      5 2 1 [w2Real] [w2Summary] s2 rep2 rfl rfl rfl rfl (by simp)
      (by
        intro rd hrd
        rw [List.mem_singleton] at hrd
        subst hrd
        exact ⟨[("bed", .num 1), ("rent", .num 7)], rfl, rfl⟩)
      (by
        intro rd hrd
        rw [List.mem_singleton] at hrd
        subst hrd
        exact ⟨[("bed", .str "Total"), ("rent", .num 99)], rfl, rfl⟩)
      rfl (by omega) hok
    refine ⟨s2, rep2, rfl, ?_, ?_, ?_⟩
    · have h1 := hmain.1 "B" 0
      simpa using h1
    · have h1 := hmain.1 "C" 0
      simpa using h1
    · have h3 := hmain.2.2 0 (by decide)
        { emptyMapping with column := some "C", json_field := some "rent" }
        "C" (JVal.num 7) (by simp [w2Cfg]) rfl (by decide) (by simp [w2Cfg]) rfl rfl
      simpa using h3

/-- C4 counterexample: capacity 1 (anchor at row 6) with two data rows.
The write loop has no capacity bound, so the second row is written
straight onto the anchor row: C6 changes from 100 to 8 while B6 still
holds the Total marker, which no upward shift could produce - the
anchor row was altered by a write, against the claim. -/
theorem total_anchor_row_overwrite_cex :
    findTotalRow cexSheet4 5 = some 6
    ∧ cexSheet4 "C" 6 = JVal.num 100
    ∧ (fillArrayData cexSheet4 cexCfg4 cexData4 emptyReport "S").map (fun p => p.1 "C" 6)
        = .ok (JVal.num 8)
    ∧ (fillArrayData cexSheet4 cexCfg4 cexData4 emptyReport "S").map (fun p => p.1 "B" 6)
        = .ok (JVal.str "Total")
    ∧ JVal.num 8 ≠ JVal.num 100 := by
  refine ⟨rfl, rfl, rfl, rfl, ?_⟩
  intro h
  exact absurd (JVal.num.inj h) (by decide)

/-- Sheet of the anchor-shift witness: anchor at B6, one capacity row. -/
def w4Sheet : Sheet := fun c r =>
  if c == "B" && r == 6 then .str "Total"
  else if c == "C" && r == 6 then .num 100
  else .null

/-- Configuration of the anchor-shift witness. -/
def w4Cfg : SheetConfig :=
  { mappings := some [{ emptyMapping with column := some "C", json_field := some "rent" }],
    array_source := some "units", row_start := some 5, max_rows := none,
    clear_columns := none, delete_empty_rows := none }

/-- Source document of the anchor-shift witness: a single data row,
within capacity. -/
def w4Data : JVal := .obj [("units", .arr [.obj [("bed", .num 1), ("rent", .num 7)]])]

/-- Witness for rows_below_anchor_shift_only: with one data row filling
the single capacity row, the anchor row and everything below it are
only shifted (here by d rows for some d within capacity). -/
theorem rows_below_anchor_shift_only_witness :
    ∃ (s2 : Sheet) (rep2 : FillReport),
      fillArrayData w4Sheet w4Cfg w4Data emptyReport "S" = .ok (s2, rep2)
      ∧ ∃ d, d ≤ 6 - w4Cfg.row_start.getD 1
        ∧ ∀ c k, s2 c (6 - d + k) = w4Sheet c (6 + k) := by
  have hisok : (fillArrayData w4Sheet w4Cfg w4Data emptyReport "S").isOk = true := rfl
  cases hok : fillArrayData w4Sheet w4Cfg w4Data emptyReport "S" with
  | error e => rw [hok] at hisok; cases hisok
  | ok pr =>
    obtain ⟨s2, rep2⟩ := pr
    refine ⟨s2, rep2, rfl, ?_⟩
    apply rows_below_anchor_shift_only w4Cfg w4Sheet w4Data emptyReport "S" 6 s2 rep2
      rfl ?_ hok
    intro xs h
    have hnav : navigate w4Data (w4Cfg.array_source.getD "")
        = .arr [.obj [("bed", .num 1), ("rent", .num 7)]] := rfl
    rw [hnav] at h
    cases h
    decide

end Serafina
